import Mathlib

/-!
Verification of the rosbag2csv conversion pipeline (`rosbag2csv.py`).

The development shallowly embeds the three algorithmic components of the
program:
* `genMsgValues` — the recursive message flattener `_gen_msg_values`;
* `dumpStep` / `dumpBag` — the streaming per-topic CSV exporter `dump_bag`;
* `colKey` / `regroupOne` / `addMultiIndices` — the hierarchical header
  regrouping pass `add_multi_indices`.

Modelling conventions:
* Deserialized ROS messages are tree-shaped structured values (`SValue`).
* Timestamps are exact integers in nanosecond units: the embedded stamp
  `sec + 1e-9 * nanosec` (a Python double) is represented exactly as the
  integer `sec * 10^9 + nanosec`, and the raw stream timestamp supplied by
  `read_next` is already an integer nanosecond count.  A relative time of
  0.5 seconds is thus the model value 500000000.
* Python string primitives used by the program (`startswith`, `lstrip`,
  `replace`, `split`, `join`) are given explicit character-list
  definitions with the same semantics.
* CSV files are lists of rows, each row a list of cell strings.
-/

/-! ## Python string primitives -/

/-- Python `s.startswith(p)`. -/
def strStartsWith (s p : String) : Bool := p.data.isPrefixOf s.data

/-- Python `s.lstrip("/")`: remove every leading `/`. -/
def pyLstripSlash (s : String) : String := ⟨s.data.dropWhile (· == '/')⟩

/-- Python `s.replace("/", "_")`: replace every `/` by `_`. -/
def pyReplaceSlash (s : String) : String :=
  ⟨s.data.map (fun c => if c = '/' then '_' else c)⟩

/-- Python `sep.join(parts)`. -/
def strJoin (sep : String) : List String → String
  | [] => ""
  | [s] => s
  | s :: rest => s ++ sep ++ strJoin sep rest

/-- Helper of `splitChar`: accumulate the current (reversed) chunk. -/
def splitCharAux (sep : Char) : List Char → List Char → List (List Char)
  | [], acc => [acc.reverse]
  | c :: cs, acc =>
      if c = sep then acc.reverse :: splitCharAux sep cs []
      else splitCharAux sep cs (c :: acc)

/-- Python `s.split(sep)` (single-character separator, no maxsplit) on
character lists: `"".split(sep) = [""]`, separators delimit possibly
empty chunks. -/
def splitChar (sep : Char) (cs : List Char) : List (List Char) :=
  splitCharAux sep cs []

/-- Python `s.split(sep)` on strings. -/
def splitStrOn (sep : Char) (s : String) : List String :=
  (splitChar sep s.data).map (fun l => ⟨l⟩)

/-- Split off everything up to the first `.`: `some (chunk, rest)` when a
dot occurs, `none` otherwise. -/
def splitDot1 : List Char → Option (List Char × List Char)
  | [] => none
  | c :: cs =>
      if c = '.' then some ([], cs)
      else (splitDot1 cs).map (fun p => (c :: p.1, p.2))

/-- Python `s.split('.', maxsplit)` on character lists: split on at most
`maxsplit` dots, keeping the remainder (later dots included) as the final
chunk. -/
def splitDotN : Nat → List Char → List (List Char)
  | 0, cs => [cs]
  | m + 1, cs =>
      match splitDot1 cs with
      | none => [cs]
      | some (chunk, rest) => chunk :: splitDotN m rest

/-! ## Structured values and the flattener `_gen_msg_values` -/

/-- A primitive (leaf) value of a deserialized message field.  Python
floats are represented by exact rationals; no claim depends on
floating-point rounding of leaf values. -/
inductive Prim : Type where
  | int (i : Int)
  | float (q : ℚ)
  | str (s : String)
  | bool (b : Bool)
deriving DecidableEq

/-- A structured value: the runtime shape of a deserialized message.
`record` carries, in declaration order, each field's name, its declared
ROS type string (as reported by `get_fields_and_field_types`), and its
value.  `seq` is a Python-level list (or primitive array) of values.
Structured values are trees by construction. -/
inductive SValue : Type where
  | scalar (v : Prim)
  | record (fields : List (String × String × SValue))
  | seq (elems : List SValue)

mutual

/-- Embedding of `_gen_msg_values(msg, prefix)`: flatten a structured
value into (dotted/indexed field path, leaf value) pairs, in traversal
order. -/
def genMsgValues : SValue → String → List (String × Prim)
  | .seq elems, pre => genSeqValues elems pre 0
  | .record fields, pre => genFieldValues fields pre
  | .scalar v, pre => [(pre, v)]
termination_by structural v => v

/-- The `for i, val in enumerate(msg)` loop of `_gen_msg_values`, with
`i` the index of the first element of the remaining list. -/
def genSeqValues : List SValue → String → Nat → List (String × Prim)
  | [], _, _ => []
  | v :: vs, pre, i =>
      genMsgValues v (pre ++ "[" ++ toString i ++ "]") ++ genSeqValues vs pre (i + 1)
termination_by structural vs => vs

/-- The `for field, type_ in msg.get_fields_and_field_types().items()`
loop of `_gen_msg_values`. -/
def genFieldValues : List (String × String × SValue) → String → List (String × Prim)
  | [], _ => []
  | (field, type_, val) :: rest, pre =>
      let full := if pre = "" then field else pre ++ "." ++ field
      (if strStartsWith type_ "sequence<" then
        -- `for i, aval in enumerate(val)`: a sequence-typed field of a
        -- deserialized message always holds an iterable sequence value,
        -- so the non-`seq` fallback below cannot arise from the program.
        match val with
        | .seq elems => genSeqValues elems full 0
        | v => genMsgValues v full
      else
        genMsgValues val full) ++ genFieldValues rest pre
termination_by structural fs => fs

end

mutual

/-- Reference count of leaf scalars of a structured value, independent of
the flattener: a scalar is one leaf, records and sequences sum their
children's leaves. -/
def leafCount : SValue → Nat
  | .scalar _ => 1
  | .record fields => leafCountFields fields
  | .seq elems => leafCountSeq elems
termination_by structural v => v

def leafCountSeq : List SValue → Nat
  | [] => 0
  | v :: vs => leafCount v + leafCountSeq vs
termination_by structural vs => vs

def leafCountFields : List (String × String × SValue) → Nat
  | [] => 0
  | (_, _, val) :: rest => leafCount val + leafCountFields rest
termination_by structural fs => fs

end

mutual

/-- The leaf scalars of a structured value, in traversal order. -/
def leaves : SValue → List Prim
  | .scalar v => [v]
  | .record fields => leavesFields fields
  | .seq elems => leavesSeq elems
termination_by structural v => v

def leavesSeq : List SValue → List Prim
  | [] => []
  | v :: vs => leaves v ++ leavesSeq vs
termination_by structural vs => vs

def leavesFields : List (String × String × SValue) → List Prim
  | [] => []
  | (_, _, val) :: rest => leaves val ++ leavesFields rest
termination_by structural fs => fs

end

/-! ## The exporter `dump_bag` -/

/-- One entry of the bag stream, after the external collaborators have
resolved the topic's type and deserialized the payload: the topic name,
the deserialized message, and the raw stream timestamp `ts` (an integer
nanosecond count, as returned by `read_next`). -/
structure BagMsg : Type where
  topic : String
  msg : SValue
  ts : Int

/-- Python `getattr(msg, name)` restricted to record values: the value of
the first field called `name`, if any. -/
def getField : SValue → String → Option SValue
  | .record fields, name =>
      match fields.find? (fun f => f.1 = name) with
      | some f => some f.2.2
      | none => none
  | _, _ => none

/-- A stamp component (`msg.header.stamp.sec` / `.nanosec`) as an
integer.  ROS `Header` stamps are always integers (`int32`/`uint32`);
Python booleans also behave as integers in arithmetic. -/
def primStamp : Prim → Option Int
  | .int i => some i
  | .bool b => some (if b then 1 else 0)
  | _ => none

/-- The row timestamp of `dump_bag` in nanosecond units:
`msg.header.stamp.sec + 1e-9 * msg.header.stamp.nanosec` (represented
exactly as `sec * 10^9 + nanosec`) when `hasattr(msg, "header")`,
otherwise the raw stream timestamp `ts`.  `none` models the Python
`AttributeError`/`TypeError` crash when a `header` field exists but has
no integer `stamp.sec`/`stamp.nanosec`. -/
def msgTime (msg : SValue) (ts : Int) : Option Int :=
  match getField msg "header" with
  | none => some ts
  | some h =>
      match getField h "stamp" with
      | none => none
      | some st =>
          match getField st "sec", getField st "nanosec" with
          | some (.scalar sv), some (.scalar nv) =>
              match primStamp sv, primStamp nv with
              | some sec, some nsec => some (sec * 1000000000 + nsec)
              | _, _ => none
          | _, _ => none

/-- The flattened (path, value) pairs of a message with the reserved
`header.`-prefixed paths removed — the comprehension filter
`if not field.startswith("header.")` of `dump_bag`. -/
def filteredPairs (msg : SValue) : List (String × Prim) :=
  (genMsgValues msg "").filter (fun fv => !(strStartsWith fv.1 "header."))

/-- The schema derived from a record: the filtered paths, in flattening
order. -/
def schemaOf (msg : SValue) : List String := (filteredPairs msg).map Prod.fst

/-- The data-row values of a record: the filtered leaf values, in
flattening order. -/
def rowVals (msg : SValue) : List Prim := (filteredPairs msg).map Prod.snd

/-- The output file opened for a topic:
`"{}/{}.csv".format(bag_path, topic.lstrip("/").replace("/", "_"))`. -/
def topicFileName (bagPath topic : String) : String :=
  bagPath ++ "/" ++ pyReplaceSlash (pyLstripSlash topic) ++ ".csv"

/-- The state of one open output file.  `headerLine` is the exact header
string printed on creation; `schema` records the field-path list the
header was built from; `rows` are the data rows written so far, each a
relative timestamp (nanosecond units) and the rendered leaf values. -/
structure FileState : Type where
  fileName : String
  headerLine : String
  schema : List String
  rows : List (Int × List Prim)
deriving DecidableEq

/-- The whole state of `dump_bag`'s loop.  `fileMap`, `start_time` and
`msg_cnt` are the program's variables (`fileMap` in insertion order,
keyed by topic).  `rowLog` and `progressLog` record, in emission order,
every data row (with its topic) and every progress marker's relative
timestamp.  `closed` records the file names explicitly closed or flushed
by the exporter; `dump_bag` contains no close or flush call, so no step
ever appends to it. -/
structure DumpState : Type where
  fileMap : List (String × FileState)
  start_time : Option Int
  msg_cnt : Nat
  rowLog : List (String × Int × List Prim)
  progressLog : List Int
  closed : List String
deriving DecidableEq

/-- Append a data row to the file of `topic`. -/
def appendRow (fm : List (String × FileState)) (topic : String)
    (row : Int × List Prim) : List (String × FileState) :=
  fm.map (fun e => if e.1 = topic then (e.1, { e.2 with rows := e.2.rows ++ [row] }) else e)

/-- One iteration of `dump_bag`'s `while reader.has_next()` loop on a
message already deserialized by the external collaborators.  `none`
models a crash (see `msgTime`). -/
def dumpStep (bagPath : String) (st : DumpState) (m : BagMsg) : Option DumpState :=
  if m.topic ∈ ["/rosout", "/parameter_events"] then some st
  else
    let st1 :=
      if (st.fileMap.lookup m.topic).isSome then st
      else
        let fields := schemaOf m.msg
        { st with
            fileMap := st.fileMap ++
              [(m.topic,
                { fileName := topicFileName bagPath m.topic,
                  headerLine := "time," ++ strJoin "," fields,
                  schema := fields,
                  rows := [] })] }
    match msgTime m.msg m.ts with
    | none => none
    | some t =>
        let start := st1.start_time.getD t
        let st2 :=
          { st1 with
              start_time := some start,
              fileMap := appendRow st1.fileMap m.topic (t - start, rowVals m.msg),
              rowLog := st1.rowLog ++ [(m.topic, t - start, rowVals m.msg)] }
        let st3 :=
          if st2.msg_cnt % 1000 = 0 then
            { st2 with progressLog := st2.progressLog ++ [t - start] }
          else st2
        some { st3 with msg_cnt := st3.msg_cnt + 1 }

/-- Run `dump_bag`'s loop from a given state over the remaining stream. -/
def dumpBagFrom (bagPath : String) : DumpState → List BagMsg → Option DumpState
  | st, [] => some st
  | st, m :: ms =>
      match dumpStep bagPath st m with
      | none => none
      | some st' => dumpBagFrom bagPath st' ms

/-- The initial state of `dump_bag`: no files, `start_time = None`,
`msg_cnt = 0`. -/
def initState : DumpState :=
  { fileMap := [], start_time := none, msg_cnt := 0,
    rowLog := [], progressLog := [], closed := [] }

/-- `dump_bag(bag_path)` on a fully deserialized stream. -/
def dumpBag (bagPath : String) (msgs : List BagMsg) : Option DumpState :=
  dumpBagFrom bagPath initState msgs

/-- The messages actually processed: those whose topic is not in the
exclusion list `["/rosout", "/parameter_events"]`. -/
def keptMsgs : List BagMsg → List BagMsg
  | [] => []
  | m :: ms =>
      if m.topic ∈ ["/rosout", "/parameter_events"] then keptMsgs ms
      else m :: keptMsgs ms

/-- The row timestamps of a stream segment, `none` if computing any of
them would crash. -/
def timesOf : List BagMsg → Option (List Int)
  | [] => some []
  | m :: ms =>
      match msgTime m.msg m.ts, timesOf ms with
      | some t, some tl => some (t :: tl)
      | _, _ => none

/-- Reference rows (claim side): one row per processed message, holding
its topic, its timestamp relative to the origin `s0`, and its filtered
leaf values. -/
def expRows (s0 : Int) : List BagMsg → List Int → List (String × Int × List Prim)
  | m :: ms, t :: tl => (m.topic, t - s0, rowVals m.msg) :: expRows s0 ms tl
  | _, _ => []

/-- Reference progress markers (claim side): processing the `c`-th
record (0-based global counter) emits its relative timestamp iff
`c % 1000 = 0`. -/
def expProgress (s0 : Int) : Nat → List Int → List Int
  | _, [] => []
  | c, t :: tl =>
      (if c % 1000 = 0 then [t - s0] else []) ++ expProgress s0 (c + 1) tl

/-! ## Rendering produced files as CSV -/

/-- Python `str()` of an integer leaf, string leaf, or boolean leaf.
Rational leaves stand for Python floats, whose shortest-roundtrip
`str()` is not modelled; no claim depends on it. -/
def renderPrim : Prim → String
  | .int i => toString i
  | .str s => s
  | .bool b => if b then "True" else "False"
  | .float q => toString q.num ++ "/" ++ toString q.den

/-- Python `str(t - start_time)` for a relative time `t` in nanosecond
units.  For a record with an embedded stamp the exporter's time is a
float in seconds, and whole-second values print as `N.0` — the only
rendered times any theorem evaluates.  The two remaining cases are not
modelled exactly: a non-integral-second float would print in Python's
shortest-roundtrip form (not the `e-9` placeholder used here), and for
headerless records `t - start_time` is an integer nanosecond difference
that Python would print without a decimal point. -/
def renderRelTime (t : Int) : String :=
  if t % 1000000000 = 0 then toString (t / 1000000000) ++ ".0"
  else toString t ++ "e-9"

/-- The CSV rows of a produced file: the header line split on commas,
then one row per data row. -/
def fileToCsv (fs : FileState) : List (List String) :=
  splitStrOn ',' fs.headerLine ::
    fs.rows.map (fun r => renderRelTime r.1 :: r.2.map renderPrim)

/-! ## The header regrouping pass `add_multi_indices` -/

/-- The hierarchical key of one column name: literal `time` and
`timestamp` map to fixed keys, any other name is `col.split('.', 2)`. -/
def colKey (col : String) : List String :=
  if col = "time" then ["RosBag", "timestamp"]
  else if col = "timestamp" then ["IMUDataArray", "timestamp"]
  else (splitDotN 2 col.data).map (fun l => ⟨l⟩)

/-- `pd.read_csv`, simplified to the structural level used by the
idempotence and containment theorems: the first row is the (flat)
header, the remaining rows are data, cell texts are carried over
verbatim.  An empty file raises `EmptyDataError`; a data row with more
cells than the header raises a tokenizing `ParserError`; shorter data
rows are padded with missing values on access.  Two pandas behaviours
are deliberately not modelled here and are refined by `readCsvPd` /
`pdRoundColumn` below (used for the data-row claim): a first data row
longer than the header becomes an implicit index rather than an error,
and every cell is re-typed and re-rendered by the read/write round
trip. -/
def readCsv (f : List (List String)) :
    Except String (List String × List (List String)) :=
  match f with
  | [] => .error "EmptyDataError: no columns to parse from file"
  | header :: data =>
      if data.any (fun r => decide (header.length < r.length)) then
        .error "ParserError: error tokenizing data"
      else
        .ok (header, data)

/-- Number of levels of the `MultiIndex` built from the per-column keys:
`pd.MultiIndex.from_tuples` uses the longest tuple's length and pads the
shorter tuples with missing values. -/
def nLevels (keys : List (List String)) : Nat :=
  keys.foldl (fun m k => max m k.length) 0

/-- Header row written by `df.to_csv` for level `j` of the
`MultiIndex`: each column's level-`j` label, a padded missing label
rendering as the empty cell. -/
def levelRow (keys : List (List String)) (j : Nat) : List String :=
  keys.map (fun k => (k.get? j).getD "")

/-- The body of `add_multi_indices`'s `try:` block for one file:
`pd.read_csv`, compute each column's hierarchical key, replace the
columns by the `MultiIndex`, and write back with `to_csv(index=False)` —
one header row per level followed by the data rows (padded to the column
count, as reading and rewriting short rows does).  Data cell texts are
carried over verbatim, which is exact precisely for cells the pandas
round trip re-renders unchanged — true of every cell in the files the
idempotence and containment theorems evaluate; `regroupOnePd` below
models the cell round trip itself. -/
def regroupOne (f : List (List String)) : Except String (List (List String)) :=
  match readCsv f with
  | .error e => .error e
  | .ok (cols, data) =>
      let keys := cols.map colKey
      let hdr := (List.range (nLevels keys)).map (levelRow keys)
      let dataN := data.map (fun r => r ++ List.replicate (cols.length - r.length) "")
      .ok (hdr ++ dataN)

/-- Decidable equality of regrouping outcomes, for evaluating concrete
runs. -/
instance : DecidableEq (Except String (List (List String))) :=
  fun a b =>
    match a, b with
    | .ok x, .ok y =>
        if h : x = y then isTrue (by rw [h])
        else isFalse (fun hh => h (by injection hh))
    | .error x, .error y =>
        if h : x = y then isTrue (by rw [h])
        else isFalse (fun hh => h (by injection hh))
    | .ok _, .error _ => isFalse (fun hh => Except.noConfusion hh)
    | .error _, .ok _ => isFalse (fun hh => Except.noConfusion hh)

/-- The outcome of `add_multi_indices` on one file: either the rewritten
file, or the reported error message (`print(f"Error: {e}")`) of the
`except` branch. -/
inductive RegroupResult : Type where
  | rewritten (f : List (List String))
  | reported (e : String)
deriving DecidableEq

/-- `add_multi_indices`'s loop over the produced files: each file is
regrouped inside `try: ... except Exception as e:`, so a failing file is
reported and processing continues with the remaining files. -/
def addMultiIndices : List (List (List String)) → List RegroupResult
  | [] => []
  | f :: fs =>
      match regroupOne f with
      | .ok g => .rewritten g :: addMultiIndices fs
      | .error e => .reported e :: addMultiIndices fs

/-- The CSV contents of every file produced by the exporter, in creation
order. -/
def producedFiles (st : DumpState) : List (List (List String)) :=
  st.fileMap.map (fun e => fileToCsv e.2)

/-- The `__main__` flow on a valid invocation: `dump_bag`, then
`add_multi_indices` over the produced files. -/
def mainRun (bagPath : String) (msgs : List BagMsg) :
    Option (DumpState × List RegroupResult) :=
  match dumpBag bagPath msgs with
  | none => none
  | some st => some (st, addMultiIndices (producedFiles st))

/-! ## The pandas cell round trip of `pd.read_csv` / `DataFrame.to_csv`

`regroupOne` above carries data cell texts over verbatim, which is exact
only for cells that the pandas round trip re-renders unchanged (as in
the files evaluated by the idempotence and containment theorems).  The
definitions below model the round trip itself: `read_csv` infers a dtype
for every column from its cell texts and converts the cells, and
`to_csv` re-renders the converted values — so a cell's text generally
changes (`007` → `7`, `1.50` → `1.5`, `NA` → empty).  Floats are
modelled as exact decimals: parsing keeps the decimal value, rendering
follows Python's `repr` down to its positional/scientific threshold.
This is exact for every decimal of at most 15 significant digits (such
decimals round-trip uniquely through binary doubles and `repr` returns
the shortest round-tripping decimal, hence the normalized input); the
rounding of longer mantissas, negative zero, infinity literals, and
whitespace around cell texts are not modelled — none occurs in any file
the development evaluates. -/

/-- The default missing-value strings of `pd.read_csv` (`na_values`):
these cells parse as missing (NaN) in every column dtype. -/
def isNaTok (s : String) : Bool :=
  decide (s ∈ ["", "#N/A", "#N/A N/A", "#NA", "-1.#IND", "-1.#QNAN", "-NaN",
    "-nan", "1.#IND", "1.#QNAN", "<NA>", "N/A", "NA", "NULL", "NaN", "None",
    "n/a", "nan", "null"])

/-- The boolean tokens of the pandas C parser. -/
def isBoolTok (s : String) : Bool :=
  decide (s ∈ ["True", "TRUE", "true", "False", "FALSE", "false"])

/-- The value of a boolean token. -/
def boolTokVal (s : String) : Bool := decide (s ∈ ["True", "TRUE", "true"])

/-- Split an optional leading sign: `(negative?, rest)`. -/
def splitSign : List Char → Bool × List Char
  | '+' :: cs => (false, cs)
  | '-' :: cs => (true, cs)
  | cs => (false, cs)

/-- The value of a nonempty decimal digit string. -/
def digitsVal (cs : List Char) : Nat :=
  cs.foldl (fun a c => a * 10 + (c.toNat - 48)) 0

/-- An integer token: optional sign, then one or more decimal digits. -/
def isIntTok (s : String) : Bool :=
  let body := (splitSign s.data).2
  !body.isEmpty && body.all (fun c => c.isDigit)

/-- The value of an integer token. -/
def intTokVal (s : String) : Int :=
  let p := splitSign s.data
  let n : Int := (digitsVal p.2 : Nat)
  if p.1 then -n else n

/-- Parse the mantissa part `digits[.digits]` / `.digits` of a float
token: `(digit value, number of fractional digits)`. -/
def parseMantissa (cs : List Char) : Option (Nat × Nat) :=
  match splitChar '.' cs with
  | [a] =>
      if !a.isEmpty && a.all (fun c => c.isDigit) then some (digitsVal a, 0)
      else none
  | [a, b] =>
      if (!a.isEmpty || !b.isEmpty) && a.all (fun c => c.isDigit) &&
          b.all (fun c => c.isDigit) then
        some (digitsVal a * 10 ^ b.length + digitsVal b, b.length)
      else none
  | _ => none

/-- Parse a float token `sign? mantissa [(e|E) sign? digits]` into its
exact decimal value `m * 10 ^ e`: `some (m, e)`, or `none` when the text
is not a float. -/
def parseFloatTok (s : String) : Option (Int × Int) :=
  let p := splitSign s.data
  let body := p.2.map (fun c => if c = 'E' then 'e' else c)
  let sgn : Int → Int := fun n => if p.1 then -n else n
  match splitChar 'e' body with
  | [m] => (parseMantissa m).map (fun q => (sgn q.1, -(q.2 : Int)))
  | [m, ex] =>
      match parseMantissa m with
      | none => none
      | some q =>
          let ep := splitSign ex
          if !ep.2.isEmpty && ep.2.all (fun c => c.isDigit) then
            let ev : Int := if ep.1 then -(digitsVal ep.2 : Int)
              else (digitsVal ep.2 : Nat)
            some (sgn q.1, -(q.2 : Int) + ev)
          else none
  | _ => none

/-- Python `repr` of a float, on the exact decimal `m * 10 ^ e`: strip
trailing zeros from the mantissa, then print positionally when the
decimal exponent of the value lies in `[-4, 16)` and in scientific
notation (mantissa `d[.digits]`, exponent sign and at least two digits)
otherwise.  `repr(0.0)` is `0.0`. -/
def renderFloat (m e : Int) : String :=
  if m = 0 then "0.0"
  else
    let sign := if m < 0 then "-" else ""
    let ds0 := (toString m.natAbs).data
    let ds := (ds0.reverse.dropWhile (fun c => c = '0')).reverse
    let e' := e + ((ds0.length - ds.length : Nat) : Int)
    let k := ds.length
    let pos10 := e' + (k : Int) - 1
    if -4 ≤ pos10 ∧ pos10 < 16 then
      if 0 ≤ e' then sign ++ ⟨ds ++ List.replicate e'.toNat '0'⟩ ++ ".0"
      else
        let f := (-e').toNat
        if f < k then sign ++ ⟨ds.take (k - f)⟩ ++ "." ++ ⟨ds.drop (k - f)⟩
        else sign ++ "0." ++ ⟨List.replicate (f - k) '0'⟩ ++ ⟨ds⟩
    else
      let mant := if k = 1 then (⟨ds⟩ : String)
        else ⟨ds.take 1⟩ ++ "." ++ ⟨ds.drop 1⟩
      let eabs := pos10.natAbs
      let edigits := toString eabs
      let epad := if eabs < 10 then "0" ++ edigits else edigits
      sign ++ mant ++ "e" ++ (if pos10 < 0 then "-" else "+") ++ epad

/-- The dtype inference of `pd.read_csv` and the rendering of
`DataFrame.to_csv`, over the cell texts of one column: a column of
boolean tokens gets bool cells; a column of integer tokens gets int64
cells — promoted to float64 when a missing value is present; a column of
float tokens gets float64 cells; any other column keeps its texts as
`object` cells.  Missing-value strings render as the empty cell in every
dtype. -/
def pdRoundColumn (cells : List String) : List String :=
  let nonNa := cells.filter (fun s => !isNaTok s)
  if nonNa.all isBoolTok then
    cells.map (fun s => if isNaTok s then ""
      else if boolTokVal s then "True" else "False")
  else if nonNa.all isIntTok then
    if cells.any isNaTok then
      cells.map (fun s => if isNaTok s then "" else renderFloat (intTokVal s) 0)
    else cells.map (fun s => toString (intTokVal s))
  else if nonNa.all (fun s => (parseFloatTok s).isSome) then
    cells.map (fun s => if isNaTok s then ""
      else match parseFloatTok s with
        | some q => renderFloat q.1 q.2
        | none => s)
  else cells.map (fun s => if isNaTok s then "" else s)

/-- The cell texts of data-frame column `j`: field `nIdx + j` of every
data row (`nIdx` implicit index fields precede the named columns), a
missing trailing field reading as the empty (missing) cell. -/
def colCells (nIdx : Nat) (data : List (List String)) (j : Nat) : List String :=
  data.map (fun r => (r.get? (nIdx + j)).getD "")

/-- `pd.read_csv` with its implicit-index inference: the first line is
the flat header; the first data row fixes the expected field count —
when it is longer than the header, its leading extra fields (and those
of every later row) are consumed as the implicit index; a later data row
longer than both the header and the first data row raises the tokenizing
`ParserError`; shorter rows are read with missing trailing values; an
empty file raises `EmptyDataError`.  Returns the column names, the
number of implicit index fields, and the raw data rows.  (Duplicate
column names — which pandas would mangle to `name.1` — and quoting of
cell texts do not occur in the files the development evaluates and are
not modelled.) -/
def readCsvPd (f : List (List String)) :
    Except String (List String × Nat × List (List String)) :=
  match f with
  | [] => .error "EmptyDataError: no columns to parse from file"
  | header :: data =>
      match data with
      | [] => .ok (header, 0, [])
      | r1 :: rest =>
          if rest.any (fun r => decide (max header.length r1.length < r.length)) then
            .error "ParserError: error tokenizing data"
          else .ok (header, r1.length - header.length, r1 :: rest)

/-- The body of `add_multi_indices`'s `try:` block with pandas's cell
round trip made explicit: `pd.read_csv` (implicit index and dtype
inference included), the hierarchical keys of the named columns, and
`to_csv(index=False)` — the multi-row header, then the data rows rebuilt
column-wise from the re-rendered cells, with the implicit index fields
dropped. -/
def regroupOnePd (f : List (List String)) : Except String (List (List String)) :=
  match readCsvPd f with
  | .error e => .error e
  | .ok (cols, nIdx, data) =>
      let keys := cols.map colKey
      let hdr := (List.range (nLevels keys)).map (levelRow keys)
      let colsR := (List.range cols.length).map
        (fun j => pdRoundColumn (colCells nIdx data j))
      let dataN := (List.range data.length).map
        (fun i => colsR.map (fun c => (c.get? i).getD ""))
      .ok (hdr ++ dataN)

/-! ## Well-formed field names

A deserialized ROS message's field names come from its IDL declaration:
they are nonempty identifiers, so they contain neither the path
separator `.` nor the index bracket `[`, and the fields of one record
have pairwise distinct names.  Under these conditions the flattener's
textual paths are unambiguous (claim C1). -/

/-- A legal field name: nonempty, without `.` or `[`. -/
def nameOk (f : String) : Bool :=
  !(f == "") && f.data.all (fun c => !(c == '.' || c == '['))

/-- Pairwise distinct names. -/
def namesDistinct : List String → Bool
  | [] => true
  | n :: ns => !(ns.contains n) && namesDistinct ns

mutual

/-- Every record of the structured value has legal, pairwise distinct
field names. -/
def validNames : SValue → Bool
  | .scalar _ => true
  | .record fields =>
      namesDistinct (fields.map (fun f => f.1)) &&
        fields.all (fun f => nameOk f.1) && validNamesFields fields
  | .seq elems => validNamesElems elems
termination_by structural v => v

def validNamesFields : List (String × String × SValue) → Bool
  | [] => true
  | (_, _, val) :: rest => validNames val && validNamesFields rest
termination_by structural fs => fs

def validNamesElems : List SValue → Bool
  | [] => true
  | v :: vs => validNames v && validNamesElems vs
termination_by structural vs => vs

end

/-- Shape of a textual-path continuation below a field or sequence
element: either nothing (the node itself is the leaf), or a `.`-started
subfield path, or a `[`-started element path. -/
def extOk (ext : List Char) : Prop :=
  ext = [] ∨ ∃ c t, ext = c :: t ∧ (c = '.' ∨ c = '[')

/-! ## Concrete inputs used by witnesses and counterexamples -/

/-- An IMU-style message with a `header` stamp (5 s), a scalar field and
a nested composite field. -/
def bagMsgA : BagMsg :=
  { topic := "/imu",
    msg := .record [("header", "std_msgs/Header",
        .record [("stamp", "builtin_interfaces/Time",
          .record [("sec", "int32", .scalar (.int 5)),
                   ("nanosec", "uint32", .scalar (.int 0))])]),
      ("x", "int32", .scalar (.int 1)),
      ("y", "pkg/Inner", .record [("a", "int32", .scalar (.int 2))])],
    ts := 777 }

/-- A second message on the same topic, stamped 0.5 s after `bagMsgA`. -/
def bagMsgB : BagMsg :=
  { topic := "/imu",
    msg := .record [("header", "std_msgs/Header",
        .record [("stamp", "builtin_interfaces/Time",
          .record [("sec", "int32", .scalar (.int 5)),
                   ("nanosec", "uint32", .scalar (.int 500000000))])]),
      ("x", "int32", .scalar (.int 3)),
      ("y", "pkg/Inner", .record [("a", "int32", .scalar (.int 4))])],
    ts := 888 }

/-- A message whose only field is its `header`: every flattened path is
`header.`-prefixed, so its schema is empty. -/
def hdrOnlyMsg : BagMsg :=
  { topic := "/hdr",
    msg := .record [("header", "std_msgs/Header",
        .record [("stamp", "builtin_interfaces/Time",
          .record [("sec", "int32", .scalar (.int 1)),
                   ("nanosec", "uint32", .scalar (.int 2))])])],
    ts := 99 }

/-- A headerless message on topic `/a/b`. -/
def slashMsgA : BagMsg :=
  { topic := "/a/b", msg := .record [("v", "int32", .scalar (.int 10))], ts := 0 }

/-- A headerless message on the distinct topic `/a_b`, which maps to the
same output file name as `/a/b`. -/
def slashMsgB : BagMsg :=
  { topic := "/a_b", msg := .record [("w", "int32", .scalar (.int 11))], ts := 500000000 }

/-- The final exporter state of the one-message run `[bagMsgA]`. -/
def exportStateA : DumpState := (dumpBag "bag" [bagMsgA]).getD initState

/-- The CSV file the run `[bagMsgA]` produces. -/
def exportFileA : List (List String) := [["time", "x", "y.a"], ["0.0", "1", "2"]]

/-- The final exporter state of the two-message run `[bagMsgA, bagMsgB]`. -/
def exportStateAB : DumpState := (dumpBag "bag" [bagMsgA, bagMsgB]).getD initState

/-- The file state the run `[bagMsgA]` leaves for topic `/imu`. -/
def fsImuA : FileState :=
  { fileName := "bag/imu.csv", headerLine := "time,x,y.a",
    schema := ["x", "y.a"], rows := [(0, [.int 1, .int 2])] }

/-- A well-formed two-column CSV file. -/
def csvGoodA : List (List String) := [["time", "u"], ["0.0", "7"]]

/-- A malformed CSV file: its second row has more cells than the header,
so `pd.read_csv` fails with a tokenizing error. -/
def csvBad : List (List String) := [["time"], ["0.0", "8"]]

/-- Another well-formed CSV file. -/
def csvGoodB : List (List String) := [["time", "w.q"], ["1.0", "9"]]

/-- A message whose string field holds the text `007`: the exporter's
`print` writes the text verbatim, but the regrouping round trip
re-parses its column as int64 and rewrites the cell as `7`. -/
def strMsg : BagMsg :=
  { topic := "/tag",
    msg := .record [("header", "std_msgs/Header",
        .record [("stamp", "builtin_interfaces/Time",
          .record [("sec", "int32", .scalar (.int 0)),
                   ("nanosec", "uint32", .scalar (.int 0))])]),
      ("label", "string", .scalar (.str "007"))],
    ts := 0 }

/-- The CSV file the run `[strMsg]` produces. -/
def strFile : List (List String) := [["time", "label"], ["0.0", "007"]]

/-! # Theorems -/

/-! ## Unfolding equations of the flattener -/

theorem genMsgValues_scalar (v : Prim) (pre : String) :
    genMsgValues (.scalar v) pre = [(pre, v)] := rfl

theorem genMsgValues_record (fields : List (String × String × SValue)) (pre : String) :
    genMsgValues (.record fields) pre = genFieldValues fields pre := rfl

theorem genMsgValues_seq (elems : List SValue) (pre : String) :
    genMsgValues (.seq elems) pre = genSeqValues elems pre 0 := rfl

theorem genSeqValues_nil (pre : String) (i : Nat) : genSeqValues [] pre i = [] := rfl

theorem genSeqValues_cons (v : SValue) (vs : List SValue) (pre : String) (i : Nat) :
    genSeqValues (v :: vs) pre i =
      genMsgValues v (pre ++ "[" ++ toString i ++ "]") ++ genSeqValues vs pre (i + 1) := rfl

theorem genFieldValues_nil (pre : String) : genFieldValues [] pre = [] := rfl

/-- For every shape of `val`, the contribution of one field is the
recursive flattening of its value at the extended path: on a sequence
value the explicit `sequence<` branch performs exactly the enumeration
that the `seq` case of `genMsgValues` performs. -/
theorem genFieldValues_cons (field type_ : String) (val : SValue)
    (rest : List (String × String × SValue)) (pre : String) :
    genFieldValues ((field, type_, val) :: rest) pre =
      genMsgValues val (if pre = "" then field else pre ++ "." ++ field) ++
        genFieldValues rest pre := by
  cases val with
  | scalar v =>
      rw [genFieldValues, ite_self]
      intro _ h
      cases h
  | record fs2 =>
      rw [genFieldValues, ite_self]
      intro _ h
      cases h
  | seq elems =>
      rw [genFieldValues, genMsgValues_seq, ite_self]

/-! ## C1: the flattener yields one pair per leaf -/

mutual

theorem genMsgValues_length : ∀ (v : SValue) (pre : String),
    (genMsgValues v pre).length = leafCount v
  | .scalar v, pre => by simp [genMsgValues_scalar, leafCount]
  | .record fields, pre => by
      rw [genMsgValues_record, leafCount]
      exact genFieldValues_length fields pre
  | .seq elems, pre => by
      rw [genMsgValues_seq, leafCount]
      exact genSeqValues_length elems pre 0
termination_by v _ => sizeOf v

theorem genSeqValues_length : ∀ (vs : List SValue) (pre : String) (i : Nat),
    (genSeqValues vs pre i).length = leafCountSeq vs
  | [], _, _ => by simp [genSeqValues_nil, leafCountSeq]
  | v :: vs, pre, i => by
      rw [genSeqValues_cons, leafCountSeq, List.length_append,
        genMsgValues_length v _, genSeqValues_length vs pre (i + 1)]
termination_by vs _ _ => sizeOf vs

theorem genFieldValues_length : ∀ (fs : List (String × String × SValue)) (pre : String),
    (genFieldValues fs pre).length = leafCountFields fs
  | [], _ => by simp [genFieldValues_nil, leafCountFields]
  | (field, type_, val) :: rest, pre => by
      rw [genFieldValues_cons, leafCountFields, List.length_append,
        genMsgValues_length val _, genFieldValues_length rest pre]
termination_by fs _ => sizeOf fs

end

mutual

theorem genMsgValues_snd : ∀ (v : SValue) (pre : String),
    (genMsgValues v pre).map Prod.snd = leaves v
  | .scalar v, pre => by simp [genMsgValues_scalar, leaves]
  | .record fields, pre => by
      rw [genMsgValues_record, leaves]
      exact genFieldValues_snd fields pre
  | .seq elems, pre => by
      rw [genMsgValues_seq, leaves]
      exact genSeqValues_snd elems pre 0
termination_by v _ => sizeOf v

theorem genSeqValues_snd : ∀ (vs : List SValue) (pre : String) (i : Nat),
    (genSeqValues vs pre i).map Prod.snd = leavesSeq vs
  | [], _, _ => by simp [genSeqValues_nil, leavesSeq]
  | v :: vs, pre, i => by
      rw [genSeqValues_cons, leavesSeq, List.map_append,
        genMsgValues_snd v _, genSeqValues_snd vs pre (i + 1)]
termination_by vs _ _ => sizeOf vs

theorem genFieldValues_snd : ∀ (fs : List (String × String × SValue)) (pre : String),
    (genFieldValues fs pre).map Prod.snd = leavesFields fs
  | [], _ => by simp [genFieldValues_nil, leavesFields]
  | (field, type_, val) :: rest, pre => by
      rw [genFieldValues_cons, leavesFields, List.map_append,
        genMsgValues_snd val _, genFieldValues_snd rest pre]
termination_by fs _ => sizeOf fs

end

/-! ## Properties of the maxsplit dot-splitter -/

theorem strmk_append (a b : List Char) : (⟨a⟩ : String) ++ ⟨b⟩ = ⟨a ++ b⟩ := rfl

theorem strmk_data (s : String) : (⟨s.data⟩ : String) = s := rfl

theorem splitDot1_eq_none {cs : List Char} (h : splitDot1 cs = none) :
    cs.count '.' = 0 := by
  induction cs with
  | nil => rfl
  | cons c cs ih =>
      rw [splitDot1] at h
      by_cases hc : c = '.'
      · rw [if_pos hc] at h
        cases h
      · rw [if_neg hc] at h
        rcases ho : splitDot1 cs with _ | p
        · simp [List.count_cons, ih ho, hc]
        · rw [ho] at h
          cases h

theorem splitDot1_eq_some {cs chunk rest : List Char}
    (h : splitDot1 cs = some (chunk, rest)) :
    cs = chunk ++ '.' :: rest ∧ chunk.count '.' = 0 := by
  induction cs generalizing chunk rest with
  | nil => cases h
  | cons c cs ih =>
      rw [splitDot1] at h
      by_cases hc : c = '.'
      · rw [if_pos hc] at h
        injection h with h
        injection h with h1 h2
        subst h1
        subst h2
        subst hc
        exact ⟨rfl, rfl⟩
      · rw [if_neg hc] at h
        rcases ho : splitDot1 cs with _ | ⟨ch2, rest2⟩
        · rw [ho] at h
          cases h
        · rw [ho] at h
          injection h with h
          injection h with h1 h2
          obtain ⟨he, hcnt⟩ := ih ho
          subst h2
          rcases chunk with _ | ⟨c', chunk⟩
          · cases h1
          · injection h1 with hc1 hc2
            subst hc1
            subst hc2
            constructor
            · rw [he]
              rfl
            · simp [List.count_cons, hcnt, hc]

theorem splitDotN_ne_nil (m : Nat) (cs : List Char) : splitDotN m cs ≠ [] := by
  cases m with
  | zero => simp [splitDotN]
  | succ m =>
      rw [splitDotN]
      rcases h : splitDot1 cs with _ | ⟨chunk, rest⟩ <;> simp

theorem splitDotN_length (m : Nat) (cs : List Char) :
    (splitDotN m cs).length = min (m + 1) (cs.count '.' + 1) := by
  induction m generalizing cs with
  | zero => simp [splitDotN]
  | succ m ih =>
      rw [splitDotN]
      rcases h : splitDot1 cs with _ | ⟨chunk, rest⟩
      · simp [splitDot1_eq_none h]
      · obtain ⟨he, hcnt⟩ := splitDot1_eq_some h
        subst he
        simp only [List.length_cons, ih rest, List.count_append, List.count_cons, hcnt]
        simp
        omega

theorem splitDotN_of_count_zero {cs : List Char} (m : Nat) (h : cs.count '.' = 0) :
    splitDotN m cs = [cs] := by
  cases m with
  | zero => rfl
  | succ m =>
      rw [splitDotN]
      rcases ho : splitDot1 cs with _ | ⟨chunk, rest⟩
      · rfl
      · obtain ⟨he, _⟩ := splitDot1_eq_some ho
        subst he
        simp [List.count_append, List.count_cons] at h

theorem strJoin_cons_of_ne_nil (sep x : String) {l : List String} (h : l ≠ []) :
    strJoin sep (x :: l) = x ++ sep ++ strJoin sep l := by
  cases l with
  | nil => cases h rfl
  | cons y ys => rfl

theorem strJoin_dot_splitDotN (m : Nat) (cs : List Char) :
    strJoin "." ((splitDotN m cs).map (fun l => (⟨l⟩ : String))) = ⟨cs⟩ := by
  induction m generalizing cs with
  | zero => rfl
  | succ m ih =>
      rw [splitDotN]
      rcases h : splitDot1 cs with _ | ⟨chunk, rest⟩
      · rfl
      · obtain ⟨he, _⟩ := splitDot1_eq_some h
        subst he
        rw [List.map_cons,
          strJoin_cons_of_ne_nil _ _ (by simp [splitDotN_ne_nil m rest]),
          ih rest]
        rw [show ("." : String) = ⟨['.']⟩ from rfl, strmk_append, strmk_append]
        simp

theorem splitDotN_dropLast_count (m : Nat) (cs : List Char) :
    ∀ l ∈ (splitDotN m cs).dropLast, l.count '.' = 0 := by
  induction m generalizing cs with
  | zero => simp [splitDotN]
  | succ m ih =>
      rw [splitDotN]
      rcases h : splitDot1 cs with _ | ⟨chunk, rest⟩
      · simp
      · obtain ⟨_, hcnt⟩ := splitDot1_eq_some h
        rw [List.dropLast_cons_of_ne_nil (splitDotN_ne_nil m rest)]
        intro l hl
        rcases List.mem_cons.1 hl with hl' | hl'
        · subst hl'
          exact hcnt
        · exact ih rest l hl'

/-- C4: the Hierarchical Header Regrouper's key for a column name:
`time ↦ (RosBag, timestamp)`, `timestamp ↦ (IMUDataArray, timestamp)`,
and every other name is split on `.` into at most three components —
exactly `min 3 (dots + 1)` of them, rejoining them on `.` recovers the
name, every component but the last is dot-free (so dots beyond the
second stay inside the final component), and a dot-free name keeps a
single-level key. -/
theorem c4_colkey_hierarchy :
    colKey "time" = ["RosBag", "timestamp"] ∧
    colKey "timestamp" = ["IMUDataArray", "timestamp"] ∧
    ∀ col : String, col ≠ "time" → col ≠ "timestamp" →
      (colKey col).length = min 3 (col.data.count '.' + 1) ∧
      strJoin "." (colKey col) = col ∧
      (∀ k ∈ (colKey col).dropLast, k.data.count '.' = 0) ∧
      (col.data.count '.' = 0 → colKey col = [col]) := by
  refine ⟨rfl, rfl, ?_⟩
  intro col h1 h2
  have hck : colKey col = (splitDotN 2 col.data).map (fun l => (⟨l⟩ : String)) := by
    rw [colKey, if_neg h1, if_neg h2]
  refine ⟨?_, ?_, ?_, ?_⟩
  · rw [hck, List.length_map, splitDotN_length]
  · rw [hck, strJoin_dot_splitDotN, strmk_data]
  · intro k hk
    rw [hck, ← List.map_dropLast] at hk
    obtain ⟨l, hl, hlk⟩ := List.mem_map.1 hk
    rw [← hlk]
    exact splitDotN_dropLast_count 2 col.data l hl
  · intro hc
    rw [hck, splitDotN_of_count_zero 2 hc, List.map_cons, List.map_nil, strmk_data]

theorem c4_colkey_hierarchy_witness :
    ("a.b.c.d" ≠ "time") ∧ ("a.b.c.d" ≠ "timestamp") ∧
    (colKey "a.b.c.d").length = min 3 ("a.b.c.d".data.count '.' + 1) ∧
    strJoin "." (colKey "a.b.c.d") = "a.b.c.d" ∧
    (∀ k ∈ (colKey "a.b.c.d").dropLast, k.data.count '.' = 0) ∧
    ("a.b.c.d".data.count '.' = 0 → colKey "a.b.c.d" = ["a.b.c.d"]) :=
  ⟨by decide, by decide, c4_colkey_hierarchy.2.2 "a.b.c.d" (by decide) (by decide)⟩

/-! ## C8: per-file regrouping failures are contained -/

/-- C8: a file on which regrouping fails (here: with error `e`) is
reported in place and every other file, before and after it, is
processed exactly as it would be on its own: the loop never aborts. -/
theorem c8_regroup_error_recovery (fs1 : List (List (List String)))
    (f : List (List String)) (fs2 : List (List (List String))) (e : String)
    (h : regroupOne f = .error e) :
    addMultiIndices (fs1 ++ f :: fs2) =
      addMultiIndices fs1 ++ .reported e :: addMultiIndices fs2 := by
  induction fs1 with
  | nil => simp [addMultiIndices, h]
  | cons g gs ih =>
      rw [List.cons_append]
      rw [addMultiIndices]
      rcases hg : regroupOne g with e' | g' <;> rw [addMultiIndices, hg, ih] <;> rfl

theorem c8_regroup_error_recovery_witness :
    regroupOne csvBad = .error "ParserError: error tokenizing data" ∧
    addMultiIndices [csvGoodA, csvBad, csvGoodB] =
      addMultiIndices [csvGoodA] ++
        .reported "ParserError: error tokenizing data" :: addMultiIndices [csvGoodB] :=
  ⟨by decide,
   c8_regroup_error_recovery [csvGoodA] csvBad [csvGoodB] _ (by decide)⟩

/-! ## C9: the regrouping round trip re-renders data cells -/

/-- Reading a list back by position: mapping `get?` over its index range
reassembles the list. -/
theorem range_map_get_eq {α : Type} (l : List α) (d : α) :
    (List.range l.length).map (fun j => ((l.get? j).getD d)) = l := by
  induction l with
  | nil => rfl
  | cons a t ih =>
      rw [List.length_cons, List.range_succ_eq_map, List.map_cons, List.map_map]
      have h2 : ((fun j => (((a :: t).get? j).getD d)) ∘ Nat.succ) =
          (fun j => ((t.get? j).getD d)) := rfl
      rw [h2, ih]
      rfl

/-- `get?` through `map`. -/
theorem get?_map_eq {α β : Type} (f : α → β) : ∀ (l : List α) (n : Nat),
    (l.map f).get? n = (l.get? n).map f
  | [], _ => rfl
  | _ :: _, 0 => rfl
  | _ :: t, n + 1 => get?_map_eq f t n

/-- `get?` at an in-range index yields a member. -/
theorem get?_lt_eq {α : Type} : ∀ (l : List α) (i : Nat), i < l.length →
    ∃ a, l.get? i = some a ∧ a ∈ l
  | a :: _, 0, _ => ⟨a, rfl, List.mem_cons_self _ _⟩
  | _ :: t, i + 1, h => by
      obtain ⟨a, ha, hm⟩ := get?_lt_eq t i (Nat.lt_of_succ_lt_succ h)
      exact ⟨a, ha, List.mem_cons_of_mem _ hm⟩

/-- C9 counterexample: the run over `strMsg` produces the file with
header `time,label` and data row `0.0,007`; the regrouping round trip
succeeds on it, yet the rewritten file's data row is `0.0,7` — the
`label` column is parsed as int64 and its cell re-rendered — so the
pass does not leave every data row's values untouched. -/
theorem c9_counterexample_retyped_cell :
    producedFiles ((dumpBag "bag" [strMsg]).getD initState) = [strFile] ∧
    regroupOnePd strFile =
      .ok [["RosBag", "label"], ["timestamp", ""], ["0.0", "7"]] ∧
    ([["RosBag", "label"], ["timestamp", ""], ["0.0", "7"]] :
        List (List String)).drop
      (nLevels ((strFile.headD []).map colKey)) ≠ strFile.drop 1 := by
  decide

/-- C9 (amended): on every successfully regrouped file, what follows the
rewritten multi-row header is the input's data region re-rendered cell
by cell through pandas's column typing: row `i` holds, for every named
column `j`, the round-tripped cell of that column at row `i` (the
implicit index fields of an over-long first data row having been
dropped, short rows reading as missing cells); and whenever no implicit
index is inferred, every named column's cell texts are fixed points of
the round trip, and the file is rectangular, the data rows are preserved
verbatim. -/
theorem c9_regroup_retypes_cells (header : List String)
    (data : List (List String)) (g : List (List String))
    (h : regroupOnePd (header :: data) = .ok g) :
    g.drop (nLevels (header.map colKey)) =
      (List.range data.length).map (fun i =>
        (List.range header.length).map (fun j =>
          (((pdRoundColumn
              (colCells ((data.headD []).length - header.length) data j)).get?
            i).getD ""))) ∧
    ((data.headD []).length ≤ header.length →
     (∀ j ∈ List.range header.length,
        pdRoundColumn (colCells 0 data j) = colCells 0 data j) →
     (∀ r ∈ data, r.length = header.length) →
     g.drop (nLevels (header.map colKey)) = data) := by
  have hlen : ((List.range (nLevels (header.map colKey))).map
      (levelRow (header.map colKey))).length = nLevels (header.map colKey) := by
    rw [List.length_map, List.length_range]
  rcases data with _ | ⟨r1, rest⟩
  · rw [regroupOnePd] at h
    have hr : readCsvPd [header] = .ok (header, 0, []) := rfl
    rw [hr] at h
    simp only [Except.ok.injEq] at h
    subst h
    refine ⟨?_, fun _ _ _ => ?_⟩ <;> rw [List.drop_left' hlen] <;> rfl
  · rw [regroupOnePd] at h
    by_cases hC : (rest.any fun r =>
        decide (max header.length r1.length < r.length)) = true
    · have hr : readCsvPd (header :: r1 :: rest) =
          .error "ParserError: error tokenizing data" := by
        rw [readCsvPd, if_pos hC]
      rw [hr] at h
      simp at h
    · have hr : readCsvPd (header :: r1 :: rest) =
          .ok (header, r1.length - header.length, r1 :: rest) := by
        rw [readCsvPd, if_neg hC]
      rw [hr] at h
      simp only [Except.ok.injEq] at h
      subst h
      constructor
      · rw [List.drop_left' hlen]
        refine List.map_congr_left ?_
        intro i _
        rw [List.map_map]
        rfl
      · intro hW hStab hrect
        rw [List.drop_left' hlen]
        have h0 : r1.length - header.length = 0 :=
          Nat.sub_eq_zero_of_le (by simpa using hW)
        rw [h0]
        have hrow : ∀ i ∈ List.range (r1 :: rest).length,
            List.map (fun c => (((c : List String).get? i).getD ""))
              (List.map (fun j => pdRoundColumn (colCells 0 (r1 :: rest) j))
                (List.range header.length)) =
            (((r1 :: rest).get? i).getD []) := by
          intro i hi
          have hilt : i < (r1 :: rest).length := List.mem_range.1 hi
          obtain ⟨r, hget, hmem⟩ := get?_lt_eq (r1 :: rest) i hilt
          have hcell : ∀ j ∈ List.range header.length,
              (((pdRoundColumn (colCells 0 (r1 :: rest) j)).get? i).getD "") =
              ((r.get? j).getD "") := by
            intro j hj
            rw [hStab j hj, colCells, get?_map_eq, hget, Nat.zero_add]
            rfl
          rw [List.map_map, hget]
          refine (List.map_congr_left hcell).trans ?_
          rw [← hrect _ hmem]
          exact range_map_get_eq r ""
        exact (List.map_congr_left hrow).trans (range_map_get_eq (r1 :: rest) [])

/-- C9 witness: on the produced file `time,x,y.a / 0.0,1,2` —
rectangular, without an implicit index, every cell a fixed point of the
round trip — the regrouped output's data region equals the original
data rows verbatim. -/
theorem c9_regroup_retypes_cells_witness :
    regroupOnePd exportFileA =
      .ok [["RosBag", "x", "y"], ["timestamp", "", "a"], ["0.0", "1", "2"]] ∧
    ((exportFileA.drop 1).headD []).length ≤ (exportFileA.headD []).length ∧
    (∀ j ∈ List.range (exportFileA.headD []).length,
      pdRoundColumn (colCells 0 (exportFileA.drop 1) j) =
        colCells 0 (exportFileA.drop 1) j) ∧
    ([["RosBag", "x", "y"], ["timestamp", "", "a"], ["0.0", "1", "2"]] :
        List (List String)).drop
      (nLevels ((exportFileA.headD []).map colKey)) = exportFileA.drop 1 :=
  ⟨by decide, by decide, by decide,
   (c9_regroup_retypes_cells ["time", "x", "y.a"] [["0.0", "1", "2"]]
      [["RosBag", "x", "y"], ["timestamp", "", "a"], ["0.0", "1", "2"]]
      (by decide)).2 (by decide) (by decide) (by decide)⟩

/-! ## Basic properties of the exporter's state transitions -/

theorem lookup_cons (k : String) (v : FileState) (l : List (String × FileState))
    (a : String) :
    ((k, v) :: l).lookup a = if a = k then some v else l.lookup a := by
  by_cases h : a = k
  · subst h
    simp [List.lookup]
  · have hb : (a == k) = false := beq_eq_false_iff_ne.mpr h
    simp [List.lookup, hb, h]

theorem lookup_append_single_of_isSome {l : List (String × FileState)} {a : String}
    (h : (l.lookup a).isSome) (k : String) (v : FileState) :
    (l ++ [(k, v)]).lookup a = l.lookup a := by
  induction l with
  | nil => simp [List.lookup] at h
  | cons e l ih =>
      obtain ⟨k', v'⟩ := e
      by_cases ha : a = k'
      · simp [lookup_cons, ha]
      · rw [lookup_cons] at h
        rw [if_neg ha] at h
        simp [lookup_cons, ha, ih h]

theorem lookup_append_single_of_none {l : List (String × FileState)} {a : String}
    (h : l.lookup a = none) (k : String) (v : FileState) :
    (l ++ [(k, v)]).lookup a = if a = k then some v else none := by
  induction l with
  | nil => simp [lookup_cons]
  | cons e l ih =>
      obtain ⟨k', v'⟩ := e
      rw [lookup_cons] at h
      by_cases ha : a = k'
      · rw [if_pos ha] at h
        cases h
      · rw [if_neg ha] at h
        simp [lookup_cons, ha, ih h]

theorem lookup_appendRow (fm : List (String × FileState)) (tp a : String)
    (row : Int × List Prim) :
    (appendRow fm tp row).lookup a =
      (fm.lookup a).map
        (fun fs => if a = tp then { fs with rows := fs.rows ++ [row] } else fs) := by
  induction fm with
  | nil => rfl
  | cons e fm ih =>
      obtain ⟨k, v⟩ := e
      show ((if k = tp then (k, { v with rows := v.rows ++ [row] }) else (k, v)) ::
          appendRow fm tp row).lookup a = _
      by_cases hk : k = tp
      · subst hk
        by_cases ha : a = k
        · subst ha
          simp [lookup_cons]
        · simp [lookup_cons, ha, ih]
      · by_cases ha : a = k
        · subst ha
          simp [lookup_cons, hk]
        · simp [lookup_cons, ha, hk, ih]

theorem dumpStep_excluded (p : String) (st : DumpState) (m : BagMsg)
    (h : m.topic ∈ ["/rosout", "/parameter_events"]) :
    dumpStep p st m = some st := by
  rw [dumpStep, if_pos h]

theorem dumpStep_kept (p : String) (st : DumpState) (m : BagMsg) (t : Int)
    (hk : m.topic ∉ ["/rosout", "/parameter_events"])
    (ht : msgTime m.msg m.ts = some t) :
    dumpStep p st m = some
      { fileMap :=
          appendRow
            (if (st.fileMap.lookup m.topic).isSome then st.fileMap
             else st.fileMap ++
               [(m.topic,
                 { fileName := topicFileName p m.topic,
                   headerLine := "time," ++ strJoin "," (schemaOf m.msg),
                   schema := schemaOf m.msg, rows := [] })])
            m.topic (t - st.start_time.getD t, rowVals m.msg),
        start_time := some (st.start_time.getD t),
        msg_cnt := st.msg_cnt + 1,
        rowLog := st.rowLog ++ [(m.topic, t - st.start_time.getD t, rowVals m.msg)],
        progressLog := st.progressLog ++
          (if st.msg_cnt % 1000 = 0 then [t - st.start_time.getD t] else []),
        closed := st.closed } := by
  by_cases hl : (st.fileMap.lookup m.topic).isSome <;>
    by_cases hc : st.msg_cnt % 1000 = 0 <;>
      simp [dumpStep, hk, ht, hl, hc]

theorem dumpStep_crash (p : String) (st : DumpState) (m : BagMsg)
    (hk : m.topic ∉ ["/rosout", "/parameter_events"])
    (ht : msgTime m.msg m.ts = none) :
    dumpStep p st m = none := by
  simp [dumpStep, hk, ht]

theorem timesOf_length : ∀ {ms : List BagMsg} {tl : List Int},
    timesOf ms = some tl → tl.length = ms.length
  | [], tl, h => by
      rw [timesOf] at h
      injection h with h
      subst h
      rfl
  | m :: ms, tl, h => by
      rw [timesOf] at h
      rcases hmt : msgTime m.msg m.ts with _ | t <;> rw [hmt] at h
      · cases h
      · rcases htl : timesOf ms with _ | tl' <;> rw [htl] at h
        · cases h
        · injection h with h
          subst h
          simp [timesOf_length htl]

theorem dumpStep_kept_parts (p : String) (st : DumpState) (m : BagMsg) (t : Int)
    (hk : m.topic ∉ ["/rosout", "/parameter_events"])
    (ht : msgTime m.msg m.ts = some t) :
    ∃ st1, dumpStep p st m = some st1 ∧
      st1.fileMap =
        appendRow
          (if (st.fileMap.lookup m.topic).isSome then st.fileMap
           else st.fileMap ++
             [(m.topic,
               { fileName := topicFileName p m.topic,
                 headerLine := "time," ++ strJoin "," (schemaOf m.msg),
                 schema := schemaOf m.msg, rows := [] })])
          m.topic (t - st.start_time.getD t, rowVals m.msg) ∧
      st1.start_time = some (st.start_time.getD t) ∧
      st1.msg_cnt = st.msg_cnt + 1 ∧
      st1.rowLog = st.rowLog ++ [(m.topic, t - st.start_time.getD t, rowVals m.msg)] ∧
      st1.progressLog = st.progressLog ++
        (if st.msg_cnt % 1000 = 0 then [t - st.start_time.getD t] else []) ∧
      st1.closed = st.closed :=
  ⟨_, dumpStep_kept p st m t hk ht, rfl, rfl, rfl, rfl, rfl, rfl⟩

theorem dumpBagFrom_started (p : String) :
    ∀ (msgs : List BagMsg) (st : DumpState) (s0 : Int) (tl : List Int),
      st.start_time = some s0 →
      timesOf (keptMsgs msgs) = some tl →
      ∃ st', dumpBagFrom p st msgs = some st' ∧
        st'.start_time = some s0 ∧
        st'.msg_cnt = st.msg_cnt + tl.length ∧
        st'.rowLog = st.rowLog ++ expRows s0 (keptMsgs msgs) tl ∧
        st'.progressLog = st.progressLog ++ expProgress s0 st.msg_cnt tl ∧
        st'.closed = st.closed
  | [], st, s0, tl, hs, htl => by
      rw [keptMsgs, timesOf] at htl
      injection htl with htl
      subst htl
      exact ⟨st, rfl, hs, by simp, by simp [expRows], by simp [expProgress], rfl⟩
  | m :: ms, st, s0, tl, hs, htl => by
      by_cases hk : m.topic ∈ ["/rosout", "/parameter_events"]
      · rw [keptMsgs, if_pos hk] at htl
        rw [show keptMsgs (m :: ms) = keptMsgs ms from by rw [keptMsgs, if_pos hk]]
        obtain ⟨st', h1, h2⟩ := dumpBagFrom_started p ms st s0 tl hs htl
        refine ⟨st', ?_, h2⟩
        rw [dumpBagFrom, dumpStep_excluded p st m hk]
        exact h1
      · rw [show keptMsgs (m :: ms) = m :: keptMsgs ms from by rw [keptMsgs, if_neg hk]]
        rw [keptMsgs, if_neg hk, timesOf] at htl
        rcases hmt : msgTime m.msg m.ts with _ | t <;> rw [hmt] at htl
        · cases htl
        · rcases htl2 : timesOf (keptMsgs ms) with _ | tl' <;> rw [htl2] at htl
          · cases htl
          · injection htl with htl
            subst htl
            obtain ⟨st1, hstep, hfm, hst, hcnt, hrow, hprog, hcl⟩ :=
              dumpStep_kept_parts p st m t hk hmt
            rw [hs, Option.getD_some] at hst hrow hprog
            obtain ⟨st', h1, h2, h3, h4, h5, h6⟩ :=
              dumpBagFrom_started p ms st1 s0 tl' hst htl2
            refine ⟨st', ?_, h2, ?_, ?_, ?_, ?_⟩
            · rw [dumpBagFrom, hstep]
              exact h1
            · rw [h3, hcnt]
              simp
              omega
            · rw [h4, hrow, expRows]
              simp
            · rw [h5, hprog, hcnt, expProgress]
              simp
            · rw [h6, hcl]

theorem dumpBagFrom_unstarted (p : String) :
    ∀ (msgs : List BagMsg) (st : DumpState) (tl : List Int),
      st.start_time = none →
      timesOf (keptMsgs msgs) = some tl →
      ∃ st', dumpBagFrom p st msgs = some st' ∧
        st'.start_time = tl.head? ∧
        st'.msg_cnt = st.msg_cnt + tl.length ∧
        st'.rowLog = st.rowLog ++ expRows (tl.headD 0) (keptMsgs msgs) tl ∧
        st'.progressLog = st.progressLog ++ expProgress (tl.headD 0) st.msg_cnt tl ∧
        st'.closed = st.closed
  | [], st, tl, hs, htl => by
      rw [keptMsgs, timesOf] at htl
      injection htl with htl
      subst htl
      exact ⟨st, rfl, hs, by simp, by simp [expRows], by simp [expProgress], rfl⟩
  | m :: ms, st, tl, hs, htl => by
      by_cases hk : m.topic ∈ ["/rosout", "/parameter_events"]
      · rw [keptMsgs, if_pos hk] at htl
        rw [show keptMsgs (m :: ms) = keptMsgs ms from by rw [keptMsgs, if_pos hk]]
        obtain ⟨st', h1, h2⟩ := dumpBagFrom_unstarted p ms st tl hs htl
        refine ⟨st', ?_, h2⟩
        rw [dumpBagFrom, dumpStep_excluded p st m hk]
        exact h1
      · rw [show keptMsgs (m :: ms) = m :: keptMsgs ms from by rw [keptMsgs, if_neg hk]]
        rw [keptMsgs, if_neg hk, timesOf] at htl
        rcases hmt : msgTime m.msg m.ts with _ | t <;> rw [hmt] at htl
        · cases htl
        · rcases htl2 : timesOf (keptMsgs ms) with _ | tl' <;> rw [htl2] at htl
          · cases htl
          · injection htl with htl
            subst htl
            obtain ⟨st1, hstep, hfm, hst, hcnt, hrow, hprog, hcl⟩ :=
              dumpStep_kept_parts p st m t hk hmt
            rw [hs] at hst hrow hprog
            simp only [Option.getD_none] at hst hrow hprog
            obtain ⟨st', h1, h2, h3, h4, h5, h6⟩ :=
              dumpBagFrom_started p ms st1 t tl' hst htl2
            refine ⟨st', ?_, ?_, ?_, ?_, ?_, ?_⟩
            · rw [dumpBagFrom, hstep]
              exact h1
            · rw [h2]
              rfl
            · rw [h3, hcnt]
              simp
              omega
            · rw [h4, hrow, List.headD_cons, expRows]
              simp
            · rw [h5, hprog, hcnt, List.headD_cons, expProgress]
              simp
            · rw [h6, hcl]

/-- Full characterization of a successful run's origin, counter, row log
and progress log, given the row timestamps of the processed messages. -/
theorem dumpBag_run (p : String) (msgs : List BagMsg) (st : DumpState)
    (tl : List Int) (h : dumpBag p msgs = some st)
    (htl : timesOf (keptMsgs msgs) = some tl) :
    st.start_time = tl.head? ∧
    st.msg_cnt = tl.length ∧
    st.rowLog = expRows (tl.headD 0) (keptMsgs msgs) tl ∧
    st.progressLog = expProgress (tl.headD 0) 0 tl ∧
    st.closed = [] := by
  obtain ⟨st', h1, h2, h3, h4, h5, h6⟩ :=
    dumpBagFrom_unstarted p msgs initState tl rfl htl
  rw [dumpBag, h1] at h
  injection h with h
  subst h
  simp only [initState] at h2 h3 h4 h5 h6
  refine ⟨h2, ?_, ?_, ?_, h6⟩
  · rw [h3, Nat.zero_add]
  · rw [h4, List.nil_append]
  · rw [h5, List.nil_append]

theorem expRows_cons_inv {s0 : Int} {ms : List BagMsg} {tl : List Int}
    {r : String × Int × List Prim} {rs : List (String × Int × List Prim)}
    (h : expRows s0 ms tl = r :: rs) :
    ∃ m ms' t tl', ms = m :: ms' ∧ tl = t :: tl' ∧
      r = (m.topic, t - s0, rowVals m.msg) := by
  cases ms with
  | nil => cases tl <;> simp [expRows] at h
  | cons m ms' =>
      cases tl with
      | nil => simp [expRows] at h
      | cons t tl' =>
          rw [expRows] at h
          injection h with h1 h2
          exact ⟨m, ms', t, tl', rfl, rfl, h1.symm⟩

theorem expRows_get?_time (s0 : Int) : ∀ (ms : List BagMsg) (tl : List Int) (i : Nat),
    ms.length = tl.length →
    ((expRows s0 ms tl).get? i).map (fun r => r.2.1) =
      (tl.get? i).map (fun t => t - s0)
  | [], tl, i, hlen => by
      cases tl with
      | nil => simp [expRows]
      | cons t tl' => cases hlen
  | m :: ms', tl, i, hlen => by
      cases tl with
      | nil => cases hlen
      | cons t tl' =>
          rw [expRows]
          cases i with
          | zero => simp
          | succ i =>
              simp only [List.get?_cons_succ]
              exact expRows_get?_time s0 ms' tl' i (by simpa using hlen)

/-- C3: over any successful run whose processed messages have row
timestamps `tl` (each the embedded `header.stamp` value when the record
has a `header`, otherwise the raw stream timestamp — see `msgTime` and
`timesOf`): the origin is set exactly once, to the first such timestamp;
every written row stores its timestamp minus the origin; the first data
row of the run stores time 0; and a record exactly 0.5 s (500000000 ns)
after the origin stores 0.5 s (500000000 ns). -/
theorem c3_relative_timestamps (p : String) (msgs : List BagMsg) (st : DumpState)
    (tl : List Int) (h : dumpBag p msgs = some st)
    (htl : timesOf (keptMsgs msgs) = some tl) :
    st.start_time = tl.head? ∧
    st.rowLog = expRows (tl.headD 0) (keptMsgs msgs) tl ∧
    (∀ r rs, st.rowLog = r :: rs → r.2.1 = 0) ∧
    (∀ i t, tl.get? i = some t → t = tl.headD 0 + 500000000 →
      (st.rowLog.get? i).map (fun r => r.2.1) = some 500000000) := by
  obtain ⟨h1, h2, h3, h4, h5⟩ := dumpBag_run p msgs st tl h htl
  refine ⟨h1, h3, ?_, ?_⟩
  · intro r rs hr
    rw [h3] at hr
    obtain ⟨m, ms', t, tl', _, htlc, hr'⟩ := expRows_cons_inv hr
    subst htlc
    rw [hr']
    simp
  · intro i t hti hteq
    rw [h3, expRows_get?_time _ _ _ _ (timesOf_length htl).symm, hti]
    rw [hteq]
    simp

theorem c3_relative_timestamps_witness :
    dumpBag "bag" [bagMsgA, bagMsgB] = some exportStateAB ∧
    timesOf (keptMsgs [bagMsgA, bagMsgB]) = some [5000000000, 5500000000] ∧
    exportStateAB.start_time = [(5000000000 : Int), 5500000000].head? ∧
    exportStateAB.rowLog =
      expRows ([(5000000000 : Int), 5500000000].headD 0)
        (keptMsgs [bagMsgA, bagMsgB]) [5000000000, 5500000000] ∧
    (exportStateAB.rowLog.get? 1).map (fun r => r.2.1) = some 500000000 :=
  ⟨by decide, by decide,
   (c3_relative_timestamps "bag" [bagMsgA, bagMsgB] exportStateAB
      [5000000000, 5500000000] (by decide) (by decide)).1,
   (c3_relative_timestamps "bag" [bagMsgA, bagMsgB] exportStateAB
      [5000000000, 5500000000] (by decide) (by decide)).2.1,
   (c3_relative_timestamps "bag" [bagMsgA, bagMsgB] exportStateAB
      [5000000000, 5500000000] (by decide) (by decide)).2.2.2 1 5500000000
     (by decide) (by decide)⟩

/-- C7 (counterexample to the claim as stated): on a run with a single
processed record, a progress marker is emitted at record 1 — the counter
is checked before it is incremented — although 1 is not a positive
multiple of 1000, so "a marker is emitted at record n iff n is a
positive multiple of 1000" is false on the code. -/
theorem c7_counterexample_marker_at_first_record :
    (dumpBag "bag" [bagMsgA]).map DumpState.progressLog = some [0] ∧
    (keptMsgs [bagMsgA]).length = 1 ∧ (1 : Nat) % 1000 ≠ 0 := by
  decide

/-- C7 (amended): a progress marker carrying the current relative
timestamp is emitted for the n-th processed record (global counter
across all channels) iff `(n - 1) % 1000 = 0`, i.e. at the 1st, 1001st,
2001st, ... processed record: the progress log equals the reference
`expProgress`, which emits at 0-based counter values divisible by 1000,
and the global counter ends equal to the number of processed records. -/
theorem c7_progress_markers (p : String) (msgs : List BagMsg) (st : DumpState)
    (tl : List Int) (h : dumpBag p msgs = some st)
    (htl : timesOf (keptMsgs msgs) = some tl) :
    st.progressLog = expProgress (tl.headD 0) 0 tl ∧ st.msg_cnt = tl.length :=
  ⟨(dumpBag_run p msgs st tl h htl).2.2.2.1, (dumpBag_run p msgs st tl h htl).2.1⟩

theorem c7_progress_markers_witness :
    dumpBag "bag" [bagMsgA, bagMsgB] = some exportStateAB ∧
    timesOf (keptMsgs [bagMsgA, bagMsgB]) = some [5000000000, 5500000000] ∧
    exportStateAB.progressLog =
      expProgress ([(5000000000 : Int), 5500000000].headD 0) 0
        [5000000000, 5500000000] ∧
    exportStateAB.msg_cnt = [(5000000000 : Int), 5500000000].length :=
  ⟨by decide, by decide,
   (c7_progress_markers "bag" [bagMsgA, bagMsgB] exportStateAB
      [5000000000, 5500000000] (by decide) (by decide)).1,
   (c7_progress_markers "bag" [bagMsgA, bagMsgB] exportStateAB
      [5000000000, 5500000000] (by decide) (by decide)).2⟩

/-! ## C2: schemas and headers come from the first record only -/

theorem schemaOf_not_header (msg : SValue) (f : String) (hf : f ∈ schemaOf msg) :
    strStartsWith f "header." = false := by
  rw [schemaOf, filteredPairs] at hf
  obtain ⟨⟨f', v⟩, hmem, hfe⟩ := List.mem_map.1 hf
  have hp := List.of_mem_filter hmem
  subst hfe
  simpa using hp

theorem headerLine_join_nonempty (fields : List String) (hne : fields ≠ []) :
    "time," ++ strJoin "," fields = strJoin "," ("time" :: fields) := by
  cases fields with
  | nil => cases hne rfl
  | cons f fs => rfl

theorem dumpBagFrom_lookup_persist (p : String) :
    ∀ (msgs : List BagMsg) (st st' : DumpState) (tp : String) (fs : FileState),
      dumpBagFrom p st msgs = some st' → st.fileMap.lookup tp = some fs →
      ∃ fs', st'.fileMap.lookup tp = some fs' ∧ fs'.schema = fs.schema ∧
        fs'.headerLine = fs.headerLine ∧ fs'.fileName = fs.fileName
  | [], st, st', tp, fs, h, hfs => by
      rw [dumpBagFrom] at h
      injection h with h
      subst h
      exact ⟨fs, hfs, rfl, rfl, rfl⟩
  | m :: ms, st, st', tp, fs, h, hfs => by
      rw [dumpBagFrom] at h
      by_cases hk : m.topic ∈ ["/rosout", "/parameter_events"]
      · rw [dumpStep_excluded p st m hk] at h
        exact dumpBagFrom_lookup_persist p ms st st' tp fs h hfs
      · rcases hmt : msgTime m.msg m.ts with _ | t
        · rw [dumpStep_crash p st m hk hmt] at h
          cases h
        · obtain ⟨st1, hstep, hfm, _, _, _, _, _⟩ :=
            dumpStep_kept_parts p st m t hk hmt
          rw [hstep] at h
          have hbase :
              (if (st.fileMap.lookup m.topic).isSome then st.fileMap
               else st.fileMap ++
                 [(m.topic,
                   { fileName := topicFileName p m.topic,
                     headerLine := "time," ++ strJoin "," (schemaOf m.msg),
                     schema := schemaOf m.msg, rows := [] })]).lookup tp = some fs := by
            by_cases hl : (st.fileMap.lookup m.topic).isSome
            · rw [if_pos hl]
              exact hfs
            · rw [if_neg hl]
              rw [lookup_append_single_of_isSome (by rw [hfs]; rfl)]
              exact hfs
          have h1 : st1.fileMap.lookup tp =
              some (if tp = m.topic
                then { fs with rows := fs.rows ++
                  [(t - st.start_time.getD t, rowVals m.msg)] }
                else fs) := by
            rw [hfm, lookup_appendRow, hbase]
            rfl
          by_cases htp : tp = m.topic
          · rw [if_pos htp] at h1
            obtain ⟨fs', hfs', hsc, hhl, hfn⟩ :=
              dumpBagFrom_lookup_persist p ms st1 st' tp _ h h1
            exact ⟨fs', hfs', hsc, hhl, hfn⟩
          · rw [if_neg htp] at h1
            exact dumpBagFrom_lookup_persist p ms st1 st' tp fs h h1

theorem dumpBagFrom_lookup_create (p : String) :
    ∀ (msgs : List BagMsg) (st st' : DumpState) (tp : String),
      dumpBagFrom p st msgs = some st' → st.fileMap.lookup tp = none →
      ∀ fs', st'.fileMap.lookup tp = some fs' →
      ∃ m, (keptMsgs msgs).find? (fun m' => m'.topic == tp) = some m ∧
        fs'.schema = schemaOf m.msg ∧
        fs'.headerLine = "time," ++ strJoin "," (schemaOf m.msg) ∧
        fs'.fileName = topicFileName p tp
  | [], st, st', tp, h, hnone, fs', hfs' => by
      rw [dumpBagFrom] at h
      injection h with h
      subst h
      rw [hnone] at hfs'
      cases hfs'
  | m :: ms, st, st', tp, h, hnone, fs', hfs' => by
      rw [dumpBagFrom] at h
      by_cases hk : m.topic ∈ ["/rosout", "/parameter_events"]
      · rw [dumpStep_excluded p st m hk] at h
        rw [show keptMsgs (m :: ms) = keptMsgs ms from by rw [keptMsgs, if_pos hk]]
        exact dumpBagFrom_lookup_create p ms st st' tp h hnone fs' hfs'
      · rw [show keptMsgs (m :: ms) = m :: keptMsgs ms from by rw [keptMsgs, if_neg hk]]
        rcases hmt : msgTime m.msg m.ts with _ | t
        · rw [dumpStep_crash p st m hk hmt] at h
          cases h
        · obtain ⟨st1, hstep, hfm, _, _, _, _, _⟩ :=
            dumpStep_kept_parts p st m t hk hmt
          rw [hstep] at h
          by_cases htp : tp = m.topic
          · subst htp
            have hl : ¬ (st.fileMap.lookup m.topic).isSome = true := by
              rw [hnone]
              simp
            have hbase :
                (if (st.fileMap.lookup m.topic).isSome then st.fileMap
                 else st.fileMap ++
                   [(m.topic,
                     { fileName := topicFileName p m.topic,
                       headerLine := "time," ++ strJoin "," (schemaOf m.msg),
                       schema := schemaOf m.msg, rows := [] })]).lookup m.topic =
                some { fileName := topicFileName p m.topic,
                       headerLine := "time," ++ strJoin "," (schemaOf m.msg),
                       schema := schemaOf m.msg, rows := [] } := by
              rw [if_neg hl, lookup_append_single_of_none hnone, if_pos rfl]
            have h1 : st1.fileMap.lookup m.topic =
                some { fileName := topicFileName p m.topic,
                       headerLine := "time," ++ strJoin "," (schemaOf m.msg),
                       schema := schemaOf m.msg,
                       rows := [(t - st.start_time.getD t, rowVals m.msg)] } := by
              rw [hfm, lookup_appendRow, hbase]
              simp
            obtain ⟨fs'', hfs'', hsc, hhl, hfn⟩ :=
              dumpBagFrom_lookup_persist p ms st1 st' m.topic _ h h1
            rw [hfs''] at hfs'
            injection hfs' with hfs'
            subst hfs'
            refine ⟨m, ?_, hsc, hhl, hfn⟩
            rw [List.find?]
            simp
          · have h1 : st1.fileMap.lookup tp = none := by
              rw [hfm, lookup_appendRow]
              by_cases hl : (st.fileMap.lookup m.topic).isSome
              · rw [if_pos hl, hnone]
                rfl
              · rw [if_neg hl, lookup_append_single_of_none hnone, if_neg htp]
                rfl
            obtain ⟨m', hfind, hrest⟩ :=
              dumpBagFrom_lookup_create p ms st1 st' tp h h1 fs' hfs'
            refine ⟨m', ?_, hrest⟩
            rw [List.find?]
            have : (m.topic == tp) = false := by
              rw [beq_eq_false_iff_ne]
              intro he
              exact htp he.symm
            rw [this]
            exact hfind

/-- C2 (counterexample to the claim as stated): for a channel whose
first record carries only `header.`-prefixed paths, the schema is empty
and the written header row is the literal string `time,` — `"time"`
followed by a trailing comma, i.e. an extra empty column name — not
`time` followed by the (zero) schema paths. -/
theorem c2_counterexample_trailing_comma :
    (dumpBag "bag" [hdrOnlyMsg]).map (fun st => st.fileMap.lookup "/hdr") =
      some (some { fileName := topicFileName "bag" "/hdr", headerLine := "time,",
                   schema := [], rows := [(0, [])] }) ∧
    "time," ≠ strJoin "," ("time" :: ([] : List String)) ∧
    splitStrOn ',' "time," ≠ ["time"] := by
  decide

/-- C2 (amended): every channel's schema is fixed from its first
non-excluded record only: the final file state of a channel has the
schema flattened from that first record with `header.`-prefixed paths
removed (no schema path starts with `header.`), its header row is the
string `time,` followed by the comma-join of the schema — which equals
`time` followed by the schema paths whenever the schema is nonempty,
and carries a trailing empty column for an empty schema — and later
records on the channel never change schema, header, or file name. -/
theorem c2_schema_from_first_record (p : String) (msgs : List BagMsg)
    (st : DumpState) (h : dumpBag p msgs = some st) :
    ∀ tp fs, st.fileMap.lookup tp = some fs →
      ((keptMsgs msgs).find? (fun m' => m'.topic == tp)).map
          (fun m => schemaOf m.msg) = some fs.schema ∧
      (∀ f ∈ fs.schema, strStartsWith f "header." = false) ∧
      fs.headerLine = "time," ++ strJoin "," fs.schema ∧
      (fs.schema ≠ [] → fs.headerLine = strJoin "," ("time" :: fs.schema)) ∧
      fs.fileName = topicFileName p tp := by
  intro tp fs hfs
  obtain ⟨m, hfind, hsc, hhl, hfn⟩ :=
    dumpBagFrom_lookup_create p msgs initState st tp h rfl fs hfs
  refine ⟨?_, ?_, ?_, ?_, hfn⟩
  · rw [hfind, Option.map_some', hsc]
  · intro f hf
    rw [hsc] at hf
    exact schemaOf_not_header m.msg f hf
  · rw [hhl, hsc]
  · intro hne
    rw [hhl, hsc]
    exact headerLine_join_nonempty _ (by rw [← hsc]; exact hne)

theorem c2_schema_from_first_record_witness :
    dumpBag "bag" [bagMsgA] = some exportStateA ∧
    exportStateA.fileMap.lookup "/imu" = some fsImuA ∧
    ((keptMsgs [bagMsgA]).find? (fun m' => m'.topic == "/imu")).map
        (fun m => schemaOf m.msg) = some fsImuA.schema ∧
    (∀ f ∈ fsImuA.schema, strStartsWith f "header." = false) ∧
    fsImuA.headerLine = "time," ++ strJoin "," fsImuA.schema ∧
    (fsImuA.schema ≠ [] → fsImuA.headerLine = strJoin "," ("time" :: fsImuA.schema)) ∧
    fsImuA.fileName = topicFileName "bag" "/imu" :=
  ⟨by decide, by decide,
   c2_schema_from_first_record "bag" [bagMsgA] exportStateA (by decide)
     "/imu" fsImuA (by decide)⟩

/-! ## C5, C6, C10: concrete pipeline facts -/

/-- C5: header regrouping is not idempotent.  On the file the export
phase produces for the run `[bagMsgA]` (header `time,x,y.a`), the first
application computes the keys `[(RosBag, timestamp), (x), (y, a)]` and
rewrites the file with a two-row header; the second application
re-splits the level-0 labels `RosBag,x,y` as flat names and computes
the different (single-level, incorrect) keys `[(RosBag), (x), (y)]`. -/
theorem c5_regroup_not_idempotent :
    dumpBag "bag" [bagMsgA] = some exportStateA ∧
    producedFiles exportStateA = [exportFileA] ∧
    regroupOne exportFileA =
      .ok [["RosBag", "x", "y"], ["timestamp", "", "a"], ["0.0", "1", "2"]] ∧
    (exportFileA.headD []).map colKey =
      [["RosBag", "timestamp"], ["x"], ["y", "a"]] ∧
    (([["RosBag", "x", "y"], ["timestamp", "", "a"], ["0.0", "1", "2"]] :
        List (List String)).headD []).map colKey = [["RosBag"], ["x"], ["y"]] ∧
    (([["RosBag", "x", "y"], ["timestamp", "", "a"], ["0.0", "1", "2"]] :
        List (List String)).headD []).map colKey ≠
      (exportFileA.headD []).map colKey := by
  decide

/-- C6 (evaluation at the failing input): on a run with one processed
message, `dump_bag` opens one output file, the regrouping pass then
reads the produced file — and the exporter's set of explicitly
closed/flushed destinations is empty: no close or flush call exists in
`dump_bag` on any path, contradicting the required
flush-and-close-before-regrouping discipline. -/
theorem c6_no_explicit_close_before_regroup :
    (mainRun "bag" [bagMsgA]).map
        (fun r => (r.1.fileMap.length, r.1.closed, r.2.length)) =
      some (1, [], 1) := by
  decide

/-- C10: the channel-name-to-file-name mapping (strip leading `/`,
replace `/` by `_`, append `.csv`) is not injective: the distinct,
non-excluded channels `/a/b` and `/a_b` map to the same file name, and a
run with one record on each opens two per-topic file states that share
one underlying CSV path, each writing its rows there. -/
theorem c10_topic_filename_collision :
    "/a/b" ≠ "/a_b" ∧
    topicFileName "bag" "/a/b" = topicFileName "bag" "/a_b" ∧
    "/a/b" ∉ ["/rosout", "/parameter_events"] ∧
    "/a_b" ∉ ["/rosout", "/parameter_events"] ∧
    (dumpBag "bag" [slashMsgA, slashMsgB]).map
        (fun st => st.fileMap.map (fun e => (e.1, e.2.fileName, e.2.rows.length))) =
      some [("/a/b", "bag/a_b.csv", 1), ("/a_b", "bag/a_b.csv", 1)] := by
  decide

/-! ## Decimal index renderings are digit strings and injective -/

theorem string_eq_of_data {s t : String} (h : s.data = t.data) : s = t := by
  cases s
  cases t
  rw [show String.mk _ = _ from congrArg String.mk h]

theorem natToString_data (i : Nat) : (toString i).data = Nat.toDigits 10 i := rfl

theorem digitChar_mod10_isDigit (n : Nat) :
    (Nat.digitChar (n % 10)).isDigit = true := by
  have h : n % 10 < 10 := Nat.mod_lt _ (by decide)
  set k := n % 10 with hk
  interval_cases k <;> decide

theorem digitChar_mod10_val (n : Nat) :
    (Nat.digitChar (n % 10)).toNat - 48 = n % 10 := by
  have h : n % 10 < 10 := Nat.mod_lt _ (by decide)
  set k := n % 10 with hk
  interval_cases k <;> decide

theorem toDigitsCore_isDigit :
    ∀ (fuel n : Nat) (ds : List Char), (∀ c ∈ ds, c.isDigit = true) →
      ∀ c ∈ Nat.toDigitsCore 10 fuel n ds, c.isDigit = true
  | 0, n, ds, hds => hds
  | fuel + 1, n, ds, hds => by
      rw [Nat.toDigitsCore]
      by_cases h0 : n / 10 = 0
      · rw [if_pos h0]
        intro c hc
        rcases List.mem_cons.1 hc with hc | hc
        · subst hc
          exact digitChar_mod10_isDigit n
        · exact hds c hc
      · rw [if_neg h0]
        refine toDigitsCore_isDigit fuel (n / 10) _ ?_
        intro c hc
        rcases List.mem_cons.1 hc with hc | hc
        · subst hc
          exact digitChar_mod10_isDigit n
        · exact hds c hc

theorem toDigits_isDigit (n : Nat) : ∀ c ∈ Nat.toDigits 10 n, c.isDigit = true :=
  toDigitsCore_isDigit (n + 1) n [] (by intro c hc; cases hc)

theorem toDigitsCore_append :
    ∀ (fuel n : Nat) (ds : List Char),
      Nat.toDigitsCore 10 fuel n ds = Nat.toDigitsCore 10 fuel n [] ++ ds
  | 0, n, ds => rfl
  | fuel + 1, n, ds => by
      rw [Nat.toDigitsCore, Nat.toDigitsCore]
      by_cases h0 : n / 10 = 0
      · rw [if_pos h0, if_pos h0]
        rfl
      · rw [if_neg h0, if_neg h0]
        rw [toDigitsCore_append fuel (n / 10) [Nat.digitChar (n % 10)],
          toDigitsCore_append fuel (n / 10) (Nat.digitChar (n % 10) :: ds)]
        simp

theorem toDigitsCore_fuel :
    ∀ (f1 f2 n : Nat), n < f1 → n < f2 →
      Nat.toDigitsCore 10 f1 n [] = Nat.toDigitsCore 10 f2 n []
  | f1 + 1, f2 + 1, n, h1, h2 => by
      rw [Nat.toDigitsCore, Nat.toDigitsCore]
      by_cases h0 : n / 10 = 0
      · rw [if_pos h0, if_pos h0]
      · rw [if_neg h0, if_neg h0]
        have hn : 0 < n := by
          rcases Nat.eq_zero_or_pos n with h | h
          · subst h
            simp at h0
          · exact h
        have hlt : n / 10 < n := Nat.div_lt_self hn (by decide)
        rw [toDigitsCore_append f1 (n / 10), toDigitsCore_append f2 (n / 10),
          toDigitsCore_fuel f1 f2 (n / 10) (by omega) (by omega)]

theorem toDigits_val :
    ∀ n : Nat,
      (Nat.toDigits 10 n).foldl (fun a c => 10 * a + (c.toNat - 48)) 0 = n := by
  intro n
  induction n using Nat.strong_induction_on with
  | _ n ih =>
      rw [Nat.toDigits, Nat.toDigitsCore]
      by_cases h0 : n / 10 = 0
      · rw [if_pos h0]
        simp [List.foldl, digitChar_mod10_val n]
        omega
      · rw [if_neg h0]
        have hn : 0 < n := by
          rcases Nat.eq_zero_or_pos n with h | h
          · subst h
            simp at h0
          · exact h
        have hlt : n / 10 < n := Nat.div_lt_self hn (by decide)
        rw [toDigitsCore_append n (n / 10),
          toDigitsCore_fuel n (n / 10 + 1) (n / 10) hlt (Nat.lt_succ_self _)]
        rw [List.foldl_append]
        rw [show Nat.toDigitsCore 10 (n / 10 + 1) (n / 10) [] = Nat.toDigits 10 (n / 10)
          from rfl]
        rw [ih (n / 10) hlt]
        simp [List.foldl, digitChar_mod10_val n]
        omega

theorem toDigits_inj {i j : Nat} (h : i ≠ j) :
    Nat.toDigits 10 i ≠ Nat.toDigits 10 j := by
  intro he
  apply h
  rw [← toDigits_val i, ← toDigits_val j, he]

/-- Disambiguation: if two strings of marker-free characters are each
followed by a continuation that is empty or starts with a marker, and
the concatenations agree, the two strings agree. -/
theorem chunks_eq_of_append_eq (P : Char → Bool) :
    ∀ (x y u v : List Char),
      (∀ c ∈ x, P c = true) → (∀ c ∈ y, P c = true) →
      (u = [] ∨ ∃ c t, u = c :: t ∧ P c = false) →
      (v = [] ∨ ∃ c t, v = c :: t ∧ P c = false) →
      x ++ u = y ++ v → x = y
  | [], [], u, v, hx, hy, hu, hv, he => rfl
  | [], b :: y', u, v, hx, hy, hu, hv, he => by
      rcases hu with hu | ⟨c, t, hu, hc⟩
      · subst hu
        cases he
      · subst hu
        rw [List.nil_append] at he
        injection he with he1 he2
        subst he1
        rw [hy c (by simp)] at hc
        cases hc
  | a :: x', [], u, v, hx, hy, hu, hv, he => by
      rcases hv with hv | ⟨c, t, hv, hc⟩
      · subst hv
        cases he
      · subst hv
        rw [List.nil_append] at he
        injection he with he1 he2
        subst he1
        rw [hx a (by simp)] at hc
        cases hc
  | a :: x', b :: y', u, v, hx, hy, hu, hv, he => by
      rw [List.cons_append, List.cons_append] at he
      injection he with he1 he2
      subst he1
      rw [chunks_eq_of_append_eq P x' y' u v
        (fun c hc => hx c (by simp [hc])) (fun c hc => hy c (by simp [hc]))
        hu hv he2]

/-! ## Structure of the flattener's textual paths -/

theorem full_data (pre f : String) :
    (if pre = "" then f else pre ++ "." ++ f).data =
      (if pre = "" then [] else pre.data ++ ['.']) ++ f.data := by
  by_cases h : pre = ""
  · rw [if_pos h, if_pos h, List.nil_append]
  · rw [if_neg h, if_neg h, String.data_append, String.data_append]

theorem str_prefix_append_left (a b : String) : a.data <+: (a ++ b).data := by
  rw [String.data_append]
  exact List.prefix_append _ _

mutual

theorem genMsgValues_paths_prefix : ∀ (v : SValue) (pre : String) (path : String),
    path ∈ (genMsgValues v pre).map Prod.fst → pre.data <+: path.data
  | .scalar v, pre, path, h => by
      rw [genMsgValues_scalar] at h
      simp at h
      subst h
      exact List.prefix_refl _
  | .record fields, pre, path, h => by
      rw [genMsgValues_record] at h
      exact genFieldValues_paths_prefix fields pre path h
  | .seq elems, pre, path, h => by
      rw [genMsgValues_seq] at h
      exact genSeqValues_paths_prefix elems pre 0 path h
termination_by v _ _ _ => sizeOf v

theorem genSeqValues_paths_prefix : ∀ (vs : List SValue) (pre : String) (i : Nat)
    (path : String),
    path ∈ (genSeqValues vs pre i).map Prod.fst → pre.data <+: path.data
  | [], _, _, path, h => by
      rw [genSeqValues_nil] at h
      cases h
  | v :: vs, pre, i, path, h => by
      rw [genSeqValues_cons, List.map_append] at h
      rcases List.mem_append.1 h with h | h
      · have hp := genMsgValues_paths_prefix v _ path h
        refine List.IsPrefix.trans ?_ hp
        exact ((str_prefix_append_left pre "[").trans
          (str_prefix_append_left (pre ++ "[") (toString i))).trans
          (str_prefix_append_left ((pre ++ "[") ++ toString i) "]")
      · exact genSeqValues_paths_prefix vs pre (i + 1) path h
termination_by vs _ _ _ _ => sizeOf vs

theorem genFieldValues_paths_prefix : ∀ (fields : List (String × String × SValue))
    (pre : String) (path : String),
    path ∈ (genFieldValues fields pre).map Prod.fst → pre.data <+: path.data
  | [], _, path, h => by
      rw [genFieldValues_nil] at h
      cases h
  | (f, ty, val) :: rest, pre, path, h => by
      rw [genFieldValues_cons, List.map_append] at h
      rcases List.mem_append.1 h with h | h
      · have hp := genMsgValues_paths_prefix val _ path h
        refine List.IsPrefix.trans ?_ hp
        by_cases hpre : pre = ""
        · rw [if_pos hpre, hpre]
          exact List.nil_prefix
        · rw [if_neg hpre]
          exact (str_prefix_append_left pre ".").trans
            (str_prefix_append_left (pre ++ ".") f)
      · exact genFieldValues_paths_prefix rest pre path h
termination_by fields _ _ _ => sizeOf fields

end

theorem genSeqValues_paths_decomp :
    ∀ (vs : List SValue) (pre : String) (i : Nat) (path : String),
      path ∈ (genSeqValues vs pre i).map Prod.fst →
      ∃ j tail, i ≤ j ∧
        path.data = pre.data ++ '[' :: (Nat.toDigits 10 j ++ ']' :: tail)
  | [], _, _, path, h => by
      rw [genSeqValues_nil] at h
      cases h
  | v :: vs, pre, i, path, h => by
      rw [genSeqValues_cons, List.map_append] at h
      rcases List.mem_append.1 h with h | h
      · obtain ⟨t, ht⟩ := genMsgValues_paths_prefix v _ path h
        refine ⟨i, t, le_refl i, ?_⟩
        rw [← ht, String.data_append, String.data_append, String.data_append,
          natToString_data,
          show ("[" : String).data = ['['] from rfl,
          show ("]" : String).data = [']'] from rfl]
        simp
      · obtain ⟨j, tail, hj, hp⟩ := genSeqValues_paths_decomp vs pre (i + 1) path h
        exact ⟨j, tail, by omega, hp⟩

theorem genFieldValues_paths_dot :
    ∀ (fields : List (String × String × SValue)) (pre : String) (path : String),
      pre ≠ "" →
      path ∈ (genFieldValues fields pre).map Prod.fst →
      ∃ rest, path.data = pre.data ++ '.' :: rest
  | [], _, path, _, h => by
      rw [genFieldValues_nil] at h
      cases h
  | (f, ty, val) :: rest, pre, path, hpre, h => by
      rw [genFieldValues_cons, List.map_append] at h
      rcases List.mem_append.1 h with h | h
      · obtain ⟨t, ht⟩ := genMsgValues_paths_prefix val _ path h
        rw [full_data, if_neg hpre] at ht
        refine ⟨f.data ++ t, ?_⟩
        rw [← ht]
        simp
      · exact genFieldValues_paths_dot rest pre path hpre h

theorem nameOk_ne_empty {f : String} (hf : nameOk f = true) : f ≠ "" := by
  rw [nameOk, Bool.and_eq_true] at hf
  intro he
  subst he
  simp at hf

theorem nameOk_chars {f : String} (hf : nameOk f = true) :
    ∀ c ∈ f.data, (!(c == '.' || c == '[')) = true := by
  rw [nameOk, Bool.and_eq_true] at hf
  exact List.all_eq_true.1 hf.2

theorem fullOf_ne_empty {f : String} (hf : nameOk f = true) (pre : String) :
    (if pre = "" then f else pre ++ "." ++ f) ≠ "" := by
  by_cases h : pre = ""
  · rw [if_pos h]
    exact nameOk_ne_empty hf
  · rw [if_neg h]
    intro he
    have hd := congrArg String.data he
    rw [String.data_append, String.data_append,
      show (".".data : List Char) = ['.'] from rfl,
      show ("".data : List Char) = [] from rfl] at hd
    simp at hd

theorem genMsgValues_paths_ext (v : SValue) (pre : String) (hpre : pre ≠ "")
    (path : String) (h : path ∈ (genMsgValues v pre).map Prod.fst) :
    ∃ ext, path.data = pre.data ++ ext ∧ extOk ext := by
  cases v with
  | scalar w =>
      rw [genMsgValues_scalar] at h
      simp at h
      subst h
      exact ⟨[], by simp, Or.inl rfl⟩
  | seq elems =>
      rw [genMsgValues_seq] at h
      obtain ⟨j, tail, _, hp⟩ := genSeqValues_paths_decomp elems pre 0 path h
      exact ⟨'[' :: (Nat.toDigits 10 j ++ ']' :: tail), hp,
        Or.inr ⟨'[', _, rfl, Or.inr rfl⟩⟩
  | record fields =>
      rw [genMsgValues_record] at h
      obtain ⟨rest, hp⟩ := genFieldValues_paths_dot fields pre path hpre h
      exact ⟨'.' :: rest, hp, Or.inr ⟨'.', rest, rfl, Or.inl rfl⟩⟩

theorem genFieldValues_paths_decomp :
    ∀ (fields : List (String × String × SValue)) (pre : String) (path : String),
      (∀ e ∈ fields, nameOk e.1 = true) →
      path ∈ (genFieldValues fields pre).map Prod.fst →
      ∃ e, e ∈ fields ∧ ∃ ext,
        path.data = ((if pre = "" then [] else pre.data ++ ['.']) ++ e.1.data) ++ ext ∧
        extOk ext
  | [], _, path, _, h => by
      rw [genFieldValues_nil] at h
      cases h
  | (f, ty, val) :: rest, pre, path, hnames, h => by
      rw [genFieldValues_cons, List.map_append] at h
      rcases List.mem_append.1 h with h | h
      · have hfo : nameOk f = true := hnames (f, ty, val) (by simp)
        obtain ⟨ext, hext, hok⟩ :=
          genMsgValues_paths_ext val _ (fullOf_ne_empty hfo pre) path h
        refine ⟨(f, ty, val), by simp, ext, ?_, hok⟩
        rw [hext, full_data]
      · obtain ⟨e, hmem, ext, hext, hok⟩ :=
          genFieldValues_paths_decomp rest pre path
            (fun e he => hnames e (by simp [he])) h
        exact ⟨e, by simp [hmem], ext, hext, hok⟩

theorem extOk_marker {ext : List Char} (h : extOk ext) :
    ext = [] ∨ ∃ c t, ext = c :: t ∧ (!(c == '.' || c == '[')) = false := by
  rcases h with h | ⟨c, t, h, hc⟩
  · exact Or.inl h
  · refine Or.inr ⟨c, t, h, ?_⟩
    rcases hc with hc | hc <;> subst hc <;> decide

mutual

theorem genMsgValues_paths_nodup : ∀ (v : SValue) (pre : String),
    validNames v = true → ((genMsgValues v pre).map Prod.fst).Nodup
  | .scalar w, pre, _ => by
      rw [genMsgValues_scalar]
      simp
  | .seq elems, pre, hv => by
      rw [genMsgValues_seq]
      rw [validNames] at hv
      exact genSeqValues_paths_nodup elems pre 0 hv
  | .record fields, pre, hv => by
      rw [genMsgValues_record]
      rw [validNames] at hv
      simp only [Bool.and_eq_true] at hv
      refine genFieldValues_paths_nodup fields pre hv.1.1 ?_ hv.2
      intro e he
      exact (List.all_eq_true.1 hv.1.2) e he
termination_by v _ _ => sizeOf v

theorem genSeqValues_paths_nodup : ∀ (vs : List SValue) (pre : String) (i : Nat),
    validNamesElems vs = true → ((genSeqValues vs pre i).map Prod.fst).Nodup
  | [], _, _, _ => by
      rw [genSeqValues_nil]
      simp
  | v :: vs, pre, i, hv => by
      rw [validNamesElems, Bool.and_eq_true] at hv
      rw [genSeqValues_cons, List.map_append, List.nodup_append]
      refine ⟨genMsgValues_paths_nodup v _ hv.1,
        genSeqValues_paths_nodup vs pre (i + 1) hv.2, ?_⟩
      intro path h1 h2
      obtain ⟨t1, ht1⟩ := genMsgValues_paths_prefix v _ path h1
      have h1' : path.data = pre.data ++ '[' :: (Nat.toDigits 10 i ++ ']' :: t1) := by
        rw [← ht1, String.data_append, String.data_append, String.data_append,
          natToString_data,
          show ("[" : String).data = ['['] from rfl,
          show ("]" : String).data = [']'] from rfl]
        simp
      obtain ⟨j, t2, hj, ht2⟩ := genSeqValues_paths_decomp vs pre (i + 1) path h2
      have hcomb := h1'.symm.trans ht2
      have he := List.append_cancel_left hcomb
      injection he with _ he
      have hij : Nat.toDigits 10 i = Nat.toDigits 10 j :=
        chunks_eq_of_append_eq Char.isDigit _ _ (']' :: t1) (']' :: t2)
          (toDigits_isDigit i) (toDigits_isDigit j)
          (Or.inr ⟨']', t1, rfl, by decide⟩) (Or.inr ⟨']', t2, rfl, by decide⟩) he
      have : i ≠ j := by omega
      exact toDigits_inj this hij
termination_by vs _ _ _ => sizeOf vs

theorem genFieldValues_paths_nodup : ∀ (fields : List (String × String × SValue))
    (pre : String),
    namesDistinct (fields.map (fun f => f.1)) = true →
    (∀ e ∈ fields, nameOk e.1 = true) →
    validNamesFields fields = true →
    ((genFieldValues fields pre).map Prod.fst).Nodup
  | [], _, _, _, _ => by
      rw [genFieldValues_nil]
      simp
  | (f, ty, val) :: rest, pre, hdist, hnames, hvf => by
      rw [validNamesFields, Bool.and_eq_true] at hvf
      rw [List.map_cons, namesDistinct, Bool.and_eq_true] at hdist
      rw [genFieldValues_cons, List.map_append, List.nodup_append]
      refine ⟨genMsgValues_paths_nodup val _ hvf.1,
        genFieldValues_paths_nodup rest pre hdist.2
          (fun e he => hnames e (by simp [he])) hvf.2, ?_⟩
      intro path h1 h2
      have hfo : nameOk f = true := hnames (f, ty, val) (by simp)
      obtain ⟨ext1, hext1, hok1⟩ :=
        genMsgValues_paths_ext val _ (fullOf_ne_empty hfo pre) path h1
      rw [full_data] at hext1
      obtain ⟨e, hmem, ext2, hext2, hok2⟩ :=
        genFieldValues_paths_decomp rest pre path
          (fun e he => hnames e (by simp [he])) h2
      have hcomb := hext1.symm.trans hext2
      rw [List.append_assoc, List.append_assoc] at hcomb
      have he := List.append_cancel_left hcomb
      have hfe : f.data = e.1.data :=
        chunks_eq_of_append_eq (fun c => !(c == '.' || c == '[')) _ _ ext1 ext2
          (nameOk_chars hfo) (nameOk_chars (hnames e (by simp [hmem])))
          (extOk_marker hok1) (extOk_marker hok2) he
      have hfeq : f = e.1 := string_eq_of_data hfe
      have hm : f ∈ rest.map (fun f => f.1) := by
        rw [hfeq]
        exact List.mem_map_of_mem _ hmem
      have := List.elem_eq_true_of_mem hm
      rw [show (rest.map (fun f => f.1)).contains f =
        (rest.map (fun f => f.1)).elem f from rfl, this] at hdist
      simp at hdist
termination_by fields _ _ _ _ => sizeOf fields

end

/-- C1: for every tree-shaped structured value (all `SValue`s are trees
by construction) the flattener terminates — it is a total function — and
yields exactly one (path, scalar) pair per leaf scalar: the number of
pairs equals the leaf count computed by the independent reference
functions, the pairs' values are exactly the leaf scalars in traversal
order, and — under the field-name conditions every deserialized ROS
message satisfies (`validNames`) — the emitted paths are pairwise
distinct, so each path addresses exactly one leaf. -/
theorem c1_flatten_one_pair_per_leaf (v : SValue) (pre : String) :
    (genMsgValues v pre).length = leafCount v ∧
    (genMsgValues v pre).map Prod.snd = leaves v ∧
    (validNames v = true → ((genMsgValues v pre).map Prod.fst).Nodup) :=
  ⟨genMsgValues_length v pre, genMsgValues_snd v pre,
   fun h => genMsgValues_paths_nodup v pre h⟩

theorem c1_flatten_one_pair_per_leaf_witness :
    validNames bagMsgA.msg = true ∧
    (genMsgValues bagMsgA.msg "").length = leafCount bagMsgA.msg ∧
    (genMsgValues bagMsgA.msg "").map Prod.snd = leaves bagMsgA.msg ∧
    ((genMsgValues bagMsgA.msg "").map Prod.fst).Nodup :=
  ⟨by decide, (c1_flatten_one_pair_per_leaf bagMsgA.msg "").1,
   (c1_flatten_one_pair_per_leaf bagMsgA.msg "").2.1,
   (c1_flatten_one_pair_per_leaf bagMsgA.msg "").2.2 (by decide)⟩
